import Mathlib

/-!
# SAL: MIDI byte-stream decoder / dispatcher and PolyBLEP oscillator

A shallow embedding of `src/MidiHandler.cpp` and `src/PolyBLEPOsc.cpp`.

* Bytes, cursors and indices are natural numbers; the ring-buffer arithmetic
  keeps its explicit `% MIDI_BUFFER_SIZE`.
* `float` values are idealised: the arithmetic is carried out in an ordered
  field `F`, and the `<cmath>` functions are supplied through `CMath F`; the
  theorems on numeric values take `F` to be the reals with `realMath`. Rounding
  is not modelled.
* A store outside the three bytes of a `MidiEvent` is undefined behaviour in
  C++; `processByte` returns `none` there.
* `IMidiEventListener::PublishEvent` and its siblings are external; the
  published events are collected, in order, in a list.
-/

namespace SAL

/-! ## The `<cmath>` interface -/

/-- The constant and functions of `<cmath>` that the two sources call. -/
structure CMath (F : Type) where
  /-- the constant `M_PI` -/
  M_PI : F
  /-- the function `sin` -/
  sin : F → F
  /-- the function `exp` -/
  exp : F → F
  /-- the function `powf` -/
  powf : F → F → F

/-- The real-number reading of `<cmath>`. -/
noncomputable def realMath : CMath ℝ where
  M_PI := Real.pi
  sin := Real.sin
  exp := Real.exp
  powf := fun x y => x ^ y

/-! ## MIDI constants

The header that defines these macros is not among the sources. -/

/-- Modelled from the spec: `MIDI_STATUS_BYTE`, the high bit that marks a status
byte ("Status bytes have the high bit set; data bytes do not"). -/
abbrev MIDI_STATUS_BYTE : Nat := 0x80
/-- Modelled from the spec: `MIDI_NOTE_OFF`, the Note-Off status nibble. -/
abbrev MIDI_NOTE_OFF : Nat := 0x8
/-- Modelled from the spec: `MIDI_NOTE_ON`, the Note-On status nibble. -/
abbrev MIDI_NOTE_ON : Nat := 0x9
/-- Modelled from the spec: `MIDI_AFTERTOUCH`, the Poly-Aftertouch status nibble. -/
abbrev MIDI_AFTERTOUCH : Nat := 0xA
/-- Modelled from the spec: `MIDI_CONTROL_CHANGE`, the Control-Change status nibble. -/
abbrev MIDI_CONTROL_CHANGE : Nat := 0xB
/-- Modelled from the spec: `MIDI_PROGRAM_CHANGE`, the Program-Change status nibble. -/
abbrev MIDI_PROGRAM_CHANGE : Nat := 0xC
/-- Modelled from the spec: `MIDI_AFTERTOUCH_MONO`, the Channel-Aftertouch status nibble. -/
abbrev MIDI_AFTERTOUCH_MONO : Nat := 0xD
/-- Modelled from the spec: `MIDI_PITCH_BEND`, the Pitch-Bend status nibble. -/
abbrev MIDI_PITCH_BEND : Nat := 0xE
/-- Modelled from the spec: `MIDI_SYSTEM_COMMON`, the nibble of System-Common and
Real-Time status bytes. -/
abbrev MIDI_SYSTEM_COMMON : Nat := 0xF
/-- Modelled from the spec: `MIDI_TIME_CODE`, the Time-Code status byte. -/
abbrev MIDI_TIME_CODE : Nat := 0xF1
/-- Modelled from the spec: `MIDI_SONG_POSITION`, the Song-Position status byte. -/
abbrev MIDI_SONG_POSITION : Nat := 0xF2
/-- Modelled from the spec: `MIDI_SONG_SELECT`, the Song-Select status byte. -/
abbrev MIDI_SONG_SELECT : Nat := 0xF3
/-- Modelled from the spec: `MIDI_TUNE_REQUEST`, the Tune-Request status byte. -/
abbrev MIDI_TUNE_REQUEST : Nat := 0xF6
/-- Modelled from the spec: `MIDI_END_OF_EXCLUSIVE`, the End-of-Exclusive status byte. -/
abbrev MIDI_END_OF_EXCLUSIVE : Nat := 0xF7
/-- Modelled from the spec: `MIDI_TIMING_CLOCK`, the Clock status byte. -/
abbrev MIDI_TIMING_CLOCK : Nat := 0xF8
/-- Modelled from the spec: `MIDI_START`, the Start status byte. -/
abbrev MIDI_START : Nat := 0xFA
/-- Modelled from the spec: `MIDI_CONTINUE`, the Continue status byte. -/
abbrev MIDI_CONTINUE : Nat := 0xFB
/-- Modelled from the spec: `MIDI_STOP`, the Stop status byte. -/
abbrev MIDI_STOP : Nat := 0xFC
/-- Modelled from the spec: `MIDI_ACTIVE_SENSING`, the Active-Sensing status byte. -/
abbrev MIDI_ACTIVE_SENSING : Nat := 0xFE
/-- Modelled from the spec: `MIDI_RESET`, the Reset status byte ("its own
status-byte constant"). -/
abbrev MIDI_RESET : Nat := 0xFF

/-- Modelled from the spec: `MIDI_NOTE_OFF_NUM_DATA` ("Note-On/Off ... → 2 data bytes"). -/
abbrev MIDI_NOTE_OFF_NUM_DATA : Nat := 2
/-- Modelled from the spec: `MIDI_AFTERTOUCH_NUM_DATA` ("Poly-Aftertouch ... → 2 data bytes"). -/
abbrev MIDI_AFTERTOUCH_NUM_DATA : Nat := 2
/-- Modelled from the spec: `MIDI_CONTROL_CHANGE_NUM_DATA` ("Control-Change ... → 1 data byte"). -/
abbrev MIDI_CONTROL_CHANGE_NUM_DATA : Nat := 1
/-- Modelled from the spec: `MIDI_PROGRAM_CHANGE_NUM_DATA` ("Program-Change ... → 1 data byte"). -/
abbrev MIDI_PROGRAM_CHANGE_NUM_DATA : Nat := 1
/-- Modelled from the spec: `MIDI_AFTERTOUCH_MONO_NUM_DATA` ("Channel-Aftertouch → 1 data byte"). -/
abbrev MIDI_AFTERTOUCH_MONO_NUM_DATA : Nat := 1
/-- Modelled from the spec: `MIDI_PITCH_BEND_NUM_DATA` ("Pitch-Bend → 2 data bytes"). -/
abbrev MIDI_PITCH_BEND_NUM_DATA : Nat := 2
/-- Modelled from the spec: `MIDI_TIME_CODE_NUM_DATA` ("Time-Code→1"). -/
abbrev MIDI_TIME_CODE_NUM_DATA : Nat := 1
/-- Modelled from the spec: `MIDI_SONG_POSITION_NUM_DATA` ("Song-Position→2"). -/
abbrev MIDI_SONG_POSITION_NUM_DATA : Nat := 2
/-- Modelled from the spec: `MIDI_SONG_SELECT_NUM_DATA` ("Song-Select→1"). -/
abbrev MIDI_SONG_SELECT_NUM_DATA : Nat := 1
/-- Modelled from the spec: `MIDI_TUNE_REQUEST_NUM_DATA` ("Tune-Request ... →0"). -/
abbrev MIDI_TUNE_REQUEST_NUM_DATA : Nat := 0
/-- Modelled from the spec: `MIDI_END_OF_EXCLUSIVE_NUM_DATA` ("End-of-Exclusive ... →0"). -/
abbrev MIDI_END_OF_EXCLUSIVE_NUM_DATA : Nat := 0
/-- Modelled from the spec: `MIDI_TIMING_CLOCK_NUM_DATA` ("Clock ... →0"). -/
abbrev MIDI_TIMING_CLOCK_NUM_DATA : Nat := 0
/-- Modelled from the spec: `MIDI_START_NUM_DATA` ("Start ... →0"). -/
abbrev MIDI_START_NUM_DATA : Nat := 0
/-- Modelled from the spec: `MIDI_CONTINUE_NUM_DATA` ("Continue ... →0"). -/
abbrev MIDI_CONTINUE_NUM_DATA : Nat := 0
/-- Modelled from the spec: `MIDI_STOP_NUM_DATA` ("Stop ... →0"). -/
abbrev MIDI_STOP_NUM_DATA : Nat := 0
/-- Modelled from the spec: `MIDI_ACTIVE_SENSING_NUM_DATA` ("Active-Sensing ... →0"). -/
abbrev MIDI_ACTIVE_SENSING_NUM_DATA : Nat := 0

/-! ## MidiEvent -/

/-- Modelled from the spec: the class `MidiEvent` is declared in a header that is
not among the sources; it is "a fixed-size byte buffer (... 3 bytes: status + 2
data bytes)". The three fields are the bytes `getRawData()[0..2]`. -/
structure MidiEvent where
  b0 : Nat
  b1 : Nat
  b2 : Nat
deriving DecidableEq, Repr

namespace MidiEvent

/-- The store `getRawData()[i] = v`. Positions 0, 1 and 2 are inside the buffer;
any other position is outside it and the store has no defined result. -/
def store (e : MidiEvent) (i v : Nat) : Option MidiEvent :=
  if i = 0 then some { e with b0 := v }
  else if i = 1 then some { e with b1 := v }
  else if i = 2 then some { e with b2 := v }
  else none

/-- Modelled from the spec: `MidiEvent::isNoteOn` is not among the sources; the
classification predicates are "derived from the status byte's high nibble". -/
def isNoteOn (e : MidiEvent) : Bool := (e.b0 >>> 4) == MIDI_NOTE_ON

/-- Modelled from the spec: `MidiEvent::isNoteOff` is not among the sources; the
classification predicates are "derived from the status byte's high nibble". -/
def isNoteOff (e : MidiEvent) : Bool := (e.b0 >>> 4) == MIDI_NOTE_OFF

/-- Modelled from the spec: `MidiEvent::isPitchBend` is not among the sources; the
classification predicates are "derived from the status byte's high nibble". -/
def isPitchBend (e : MidiEvent) : Bool := (e.b0 >>> 4) == MIDI_PITCH_BEND

end MidiEvent

/-! ## Published events -/

/-- The enumeration `KeyPressedEnum`. -/
inductive KeyPressedEnum where
  | PRESSED
  | RELEASED
deriving DecidableEq, Repr

/-- The event `KeyEvent(pressed, note, velocity)`. -/
structure KeyEvent where
  pressed : KeyPressedEnum
  note : Nat
  velocity : Nat
deriving DecidableEq, Repr

/-- The event `PitchEvent(pitchBendFactor)`. -/
structure PitchEvent (F : Type) where
  pitchFactor : F
deriving DecidableEq, Repr

/-- One call of a `PublishEvent` function: the generic raw event of
`IMidiEventListener`, a key event of `IKeyEventListener`, or a pitch event of
`IPitchEventListener`. -/
inductive Published (F : Type) where
  | midi (e : MidiEvent)
  | key (e : KeyEvent)
  | pitch (e : PitchEvent F)
deriving DecidableEq, Repr

/-! ## MidiHandler -/

/-- The array `m_MsgBuffer` after the slot at index `i` has been replaced by `e`. -/
def setSlot (buffer : Nat → MidiEvent) (i : Nat) (e : MidiEvent) : Nat → MidiEvent :=
  fun j => if j = i then e else buffer j

/-- The data members of `MidiHandler`. `m_MsgBuffer` is the array of
`MIDI_BUFFER_SIZE` slots, read at indices below that size only. -/
structure MidiHandler where
  m_MsgBuffer : Nat → MidiEvent
  m_WorkingStatusByte : Nat
  m_WorkingMessageLength : Nat
  m_WorkingDataByteIndex : Nat
  m_CurrentWriteIndex : Nat
  m_CurrentReadIndex : Nat
  m_SemitonesToPitchBend : Nat

namespace MidiHandler

/-- The constructor `MidiHandler::MidiHandler()` (lines 7-15). The slots are
default-constructed `MidiEvent`s, whose initial bytes `slots` the sources do not
show. -/
def new (slots : Nat → MidiEvent) : MidiHandler where
  m_MsgBuffer := slots
  m_WorkingStatusByte := 0
  m_WorkingMessageLength := 0
  m_WorkingDataByteIndex := 0
  m_CurrentWriteIndex := 0
  m_CurrentReadIndex := 0
  m_SemitonesToPitchBend := 1

/-- The expected number of data bytes that `processByte` derives from a status
byte (lines 26-101): the channel switch on the high nibble, or the
System-Common/Real-Time switch on the whole byte. The Reset case assigns the
constant `MIDI_RESET` itself (line 96). -/
def messageLength (byte : Nat) : Nat :=
  let statusByteNybble := byte >>> 4
  if statusByteNybble ≠ MIDI_SYSTEM_COMMON then
    if statusByteNybble = MIDI_NOTE_OFF then MIDI_NOTE_OFF_NUM_DATA
    else if statusByteNybble = MIDI_NOTE_ON then MIDI_NOTE_OFF_NUM_DATA
    else if statusByteNybble = MIDI_AFTERTOUCH then MIDI_AFTERTOUCH_NUM_DATA
    else if statusByteNybble = MIDI_CONTROL_CHANGE then MIDI_CONTROL_CHANGE_NUM_DATA
    else if statusByteNybble = MIDI_PROGRAM_CHANGE then MIDI_PROGRAM_CHANGE_NUM_DATA
    else if statusByteNybble = MIDI_AFTERTOUCH_MONO then MIDI_AFTERTOUCH_MONO_NUM_DATA
    else if statusByteNybble = MIDI_PITCH_BEND then MIDI_PITCH_BEND_NUM_DATA
    else 0
  else
    if byte = MIDI_TIME_CODE then MIDI_TIME_CODE_NUM_DATA
    else if byte = MIDI_SONG_POSITION then MIDI_SONG_POSITION_NUM_DATA
    else if byte = MIDI_SONG_SELECT then MIDI_SONG_SELECT_NUM_DATA
    else if byte = MIDI_TUNE_REQUEST then MIDI_TUNE_REQUEST_NUM_DATA
    else if byte = MIDI_END_OF_EXCLUSIVE then MIDI_END_OF_EXCLUSIVE_NUM_DATA
    else if byte = MIDI_TIMING_CLOCK then MIDI_TIMING_CLOCK_NUM_DATA
    else if byte = MIDI_START then MIDI_START_NUM_DATA
    else if byte = MIDI_CONTINUE then MIDI_CONTINUE_NUM_DATA
    else if byte = MIDI_STOP then MIDI_STOP_NUM_DATA
    else if byte = MIDI_ACTIVE_SENSING then MIDI_ACTIVE_SENSING_NUM_DATA
    else if byte = MIDI_RESET then MIDI_RESET
    else 0

/-- The function `MidiHandler::processByte` (lines 21-123), for a buffer of
`MIDI_BUFFER_SIZE` slots. In the data-byte branch the pointer
`midiMessageBytes` is taken once, at slot `(m_CurrentWriteIndex - 1 +
MIDI_BUFFER_SIZE) % MIDI_BUFFER_SIZE` (line 108), before the write cursor is
advanced in the running-status branch (line 117); all the stores of lines 113,
118 and 120 go through it. The index `m_CurrentWriteIndex - 1 + MIDI_BUFFER_SIZE`
is written `m_CurrentWriteIndex + MIDI_BUFFER_SIZE - 1`, which is the same number
and keeps the subtraction from truncating at write cursor 0. -/
def processByte (MIDI_BUFFER_SIZE : Nat) (h : MidiHandler) (byte : Nat) : Option MidiHandler :=
  if byte &&& MIDI_STATUS_BYTE ≠ 0 then
    -- status byte
    (h.m_MsgBuffer h.m_CurrentWriteIndex).store 0 byte |>.map fun slot =>
      { h with
        m_WorkingStatusByte := byte
        m_MsgBuffer := setSlot h.m_MsgBuffer h.m_CurrentWriteIndex slot
        m_WorkingMessageLength := messageLength byte
        m_WorkingDataByteIndex := 0
        m_CurrentWriteIndex := (h.m_CurrentWriteIndex + 1) % MIDI_BUFFER_SIZE }
  else
    -- data byte
    let slotIndex := (h.m_CurrentWriteIndex + MIDI_BUFFER_SIZE - 1) % MIDI_BUFFER_SIZE
    let midiMessageBytes := h.m_MsgBuffer slotIndex
    let dataByteIndex := h.m_WorkingDataByteIndex + 1
    if dataByteIndex ≤ h.m_WorkingMessageLength then
      (midiMessageBytes.store dataByteIndex byte).map fun slot =>
        { h with
          m_WorkingDataByteIndex := dataByteIndex
          m_MsgBuffer := setSlot h.m_MsgBuffer slotIndex slot }
    else
      ((midiMessageBytes.store 0 h.m_WorkingStatusByte).bind fun slot =>
        slot.store 1 byte).map fun slot =>
        { h with
          m_CurrentWriteIndex := (h.m_CurrentWriteIndex + 1) % MIDI_BUFFER_SIZE
          m_WorkingDataByteIndex := 1
          m_MsgBuffer := setSlot h.m_MsgBuffer slotIndex slot }

/-- Successive `processByte` calls on the bytes of a stream, in order. -/
def processBytes (MIDI_BUFFER_SIZE : Nat) (h : MidiHandler) (bytes : List Nat) :
    Option MidiHandler :=
  bytes.foldlM (processByte MIDI_BUFFER_SIZE) h

/-- The function `MidiHandler::nextMidiMessage` (lines 125-136). The returned
pointer is the index of the slot it points to, `none` for `nullptr`. -/
def nextMidiMessage (MIDI_BUFFER_SIZE : Nat) (h : MidiHandler) : MidiHandler × Option Nat :=
  if h.m_CurrentReadIndex ≠ h.m_CurrentWriteIndex then
    ({ h with m_CurrentReadIndex := (h.m_CurrentReadIndex + 1) % MIDI_BUFFER_SIZE },
      some h.m_CurrentReadIndex)
  else
    (h, none)

/-- The conversion of an `int` to `short` (16 bits, two's complement). -/
def toShort (x : Nat) : Int :=
  if x % 65536 < 32768 then ((x % 65536 : Nat) : Int) else ((x % 65536 : Nat) : Int) - 65536

/-- The value `short pitchBendVal = (msb << 7) | lsb` (line 152). -/
def pitchBendVal (lsb msb : Nat) : Int :=
  toShort ((msb <<< 7) ||| lsb)

/-- The value `pitchBendNormalized` (line 155). -/
def pitchBendNormalized {F : Type} [Field F] (pitchBendVal : Int) : F :=
  (((pitchBendVal : F) / 16383) * 2) - 1

/-- The value `pitchBendFactor` (line 158). -/
def pitchBendFactor {F : Type} [Field F] (cm : CMath F) (lsb msb semitonesToPitchBend : Nat) : F :=
  cm.powf 2 ((pitchBendNormalized (pitchBendVal lsb msb) * (semitonesToPitchBend : F)) / 12)

/-- The body of the loop of `dispatchEvents` (lines 144-169) for one message:
the events it publishes, in order. -/
def publishEvents {F : Type} [Field F] (cm : CMath F) (semitonesToPitchBend : Nat)
    (midiEvent : MidiEvent) : List (Published F) :=
  Published.midi midiEvent ::
    (if midiEvent.isPitchBend then
      [Published.pitch ⟨pitchBendFactor cm midiEvent.b1 midiEvent.b2 semitonesToPitchBend⟩]
    else if midiEvent.isNoteOn then
      [Published.key ⟨KeyPressedEnum.PRESSED, midiEvent.b1, midiEvent.b2⟩]
    else if midiEvent.isNoteOff then
      [Published.key ⟨KeyPressedEnum.RELEASED, midiEvent.b1, midiEvent.b2⟩]
    else [])

/-- The loop `while ( nextMidiEvent != nullptr )` of `dispatchEvents` (lines
142-173). `fuel` bounds the number of iterations; the result is `none` when the
loop has not ended within it. -/
def dispatchLoop {F : Type} [Field F] (cm : CMath F) (MIDI_BUFFER_SIZE : Nat) :
    Nat → MidiHandler → Option Nat → Option (MidiHandler × List (Published F))
  | _, h, none => some (h, [])
  | 0, _, some _ => none
  | fuel + 1, h, some i =>
    let published := publishEvents cm h.m_SemitonesToPitchBend (h.m_MsgBuffer i)
    let next := nextMidiMessage MIDI_BUFFER_SIZE h
    (dispatchLoop cm MIDI_BUFFER_SIZE fuel next.1 next.2).map fun r => (r.1, published ++ r.2)

/-- The function `MidiHandler::dispatchEvents` (lines 138-174): the handler it
leaves and the events it publishes, in order. -/
def dispatchEvents {F : Type} [Field F] (cm : CMath F) (MIDI_BUFFER_SIZE : Nat) (fuel : Nat)
    (h : MidiHandler) : Option (MidiHandler × List (Published F)) :=
  let next := nextMidiMessage MIDI_BUFFER_SIZE h
  dispatchLoop cm MIDI_BUFFER_SIZE fuel next.1 next.2

/-- The function `MidiHandler::setNumberOfSemitonesToPitchBend` (lines 176-179). -/
def setNumberOfSemitonesToPitchBend (h : MidiHandler) (numSemitones : Nat) : MidiHandler :=
  { h with m_SemitonesToPitchBend := numSemitones }

/-- The function `MidiHandler::getNumberOfSemitonesToPitchBend` (lines 181-184). -/
def getNumberOfSemitonesToPitchBend (h : MidiHandler) : Nat :=
  h.m_SemitonesToPitchBend

end MidiHandler

/-! ## PolyBLEPOsc -/

/-- The enumeration `OscillatorMode`. -/
inductive OscillatorMode where
  | SINE
  | SAWTOOTH
  | SQUARE
  | TRIANGLE
deriving DecidableEq, Repr

/-- The data members of `PolyBLEPOsc`. -/
structure PolyBLEPOsc (F : Type) where
  m_Phase : F
  m_PhaseIncr : F
  m_LastOutput : F
  m_LastLastOutput : F
  m_A0 : F
  m_B1 : F
  m_OscMode : OscillatorMode
deriving DecidableEq, Repr

/-- The function `fmod` of `<cmath>`: `x - n * y` with `n` the quotient `x / y`
truncated towards zero. -/
def fmod {F : Type} [LinearOrderedField F] [FloorRing F] (x y : F) : F :=
  x - (((if 0 ≤ x / y then ⌊x / y⌋ else ⌈x / y⌉ : ℤ) : F)) * y

/-- The PolyBLEP correction for normalised phase `t` and normalised increment
`dt`. The source writes this `if / else if` twice inside `nextSample`: lines
33-42 for `polyBLEPOutput` and lines 49-58 for `polyBLEPSquareOutput`. -/
def polyBLEP {F : Type} [LinearOrderedField F] (t dt : F) : F :=
  if t < dt then
    let t := t / dt
    t + t - t * t - 1
  else if t > 1 - dt then
    let t := (t - 1) / dt
    t * t + t + t + 1
  else 0

namespace PolyBLEPOsc

variable {F : Type} [LinearOrderedField F] [FloorRing F]

/-- The constructor `PolyBLEPOsc::PolyBLEPOsc()` (lines 7-16). -/
def new : PolyBLEPOsc F where
  m_Phase := 0
  m_PhaseIncr := 0
  m_LastOutput := 0
  m_LastLastOutput := 0
  m_A0 := 1
  m_B1 := 0
  m_OscMode := OscillatorMode.SINE

/-- The waveform part of `nextSample` (lines 24-93): the value of `output` and
the oscillator with the two filter registers as the Triangle branch leaves
them. -/
def waveform (cm : CMath F) (o : PolyBLEPOsc F) : F × PolyBLEPOsc F :=
  if o.m_OscMode ≠ OscillatorMode.SINE then
    let t := |o.m_Phase| / (2 * cm.M_PI)
    let dt := |o.m_PhaseIncr| / (2 * cm.M_PI)
    let polyBLEPOutput := polyBLEP t dt
    if o.m_OscMode = OscillatorMode.SQUARE ∨ o.m_OscMode = OscillatorMode.TRIANGLE then
      let t := fmod ((|o.m_Phase| / (2 * cm.M_PI)) + 1 / 2) 1
      let polyBLEPSquareOutput := polyBLEP t dt
      let output : F := if o.m_Phase < cm.M_PI then 1 else -1
      let output := output + polyBLEPOutput
      let output := output - polyBLEPSquareOutput
      if o.m_OscMode = OscillatorMode.TRIANGLE then
        let lastLastOutput := (output * o.m_A0) + (o.m_LastOutput * o.m_B1)
        let lastOutput := (o.m_LastOutput * o.m_A0) + (lastLastOutput * o.m_B1)
        (lastOutput, { o with m_LastLastOutput := lastLastOutput, m_LastOutput := lastOutput })
      else
        (output, o)
    else if o.m_OscMode = OscillatorMode.SAWTOOTH then
      let output := ((2 * o.m_Phase) / (2 * cm.M_PI)) - 1
      (output - polyBLEPOutput, o)
    else
      (0, o)
  else
    (cm.sin o.m_Phase, o)

/-- The phase update of `nextSample` (lines 96-104). -/
def advancePhase (cm : CMath F) (o : PolyBLEPOsc F) : PolyBLEPOsc F :=
  let phase := o.m_Phase + o.m_PhaseIncr
  if phase > 2 * cm.M_PI then
    { o with m_Phase := phase - 2 * cm.M_PI }
  else if phase < -2 * cm.M_PI then
    { o with m_Phase := phase + 2 * cm.M_PI }
  else
    { o with m_Phase := phase }

/-- The function `PolyBLEPOsc::nextSample` (lines 22-107): the returned sample
and the oscillator after the call. -/
def nextSample (cm : CMath F) (o : PolyBLEPOsc F) : F × PolyBLEPOsc F :=
  let r := waveform cm o
  (r.1, advancePhase cm r.2)

/-- The function `PolyBLEPOsc::setFrequency` (lines 109-114). `SAMPLE_RATE` is
defined in `AudioConstants.hpp`, which is not among the sources. -/
def setFrequency (cm : CMath F) (SAMPLE_RATE : F) (o : PolyBLEPOsc F) (frequency : F) :
    PolyBLEPOsc F :=
  let b1 := cm.exp (-2 * cm.M_PI * (|frequency| / SAMPLE_RATE / 2))
  { o with
    m_PhaseIncr := (frequency * 2 * cm.M_PI) / SAMPLE_RATE
    m_B1 := b1
    m_A0 := 1 - b1 }

/-- The function `PolyBLEPOsc::setOscillatorMode` (lines 116-119). -/
def setOscillatorMode (o : PolyBLEPOsc F) (mode : OscillatorMode) : PolyBLEPOsc F :=
  { o with m_OscMode := mode }

/-- The function `PolyBLEPOsc::getOscillatorMode` (lines 121-124). -/
def getOscillatorMode (o : PolyBLEPOsc F) : OscillatorMode :=
  o.m_OscMode

/-- The oscillator after `k` successive `nextSample` calls. -/
def afterSamples (cm : CMath F) (o : PolyBLEPOsc F) : Nat → PolyBLEPOsc F
  | 0 => o
  | k + 1 => (nextSample cm (afterSamples cm o k)).2

/-- The result of the `(k+1)`-th of successive `nextSample` calls. -/
def nthSample (cm : CMath F) (o : PolyBLEPOsc F) (k : Nat) : F :=
  (nextSample cm (afterSamples cm o k)).1

end PolyBLEPOsc

/-! ## Messages on the wire -/

/-- A message as it is sent with its own status byte: the status byte and the
data bytes that follow it. -/
structure Msg where
  status : Nat
  data : List Nat
deriving DecidableEq, Repr

namespace Msg

/-- The bytes of the message in the order they are sent. -/
def bytes (m : Msg) : List Nat := m.status :: m.data

/-- A complete message: a status byte other than Reset, followed by exactly the
number of data bytes the decoder expects for it, each with the high bit clear. -/
def Complete (m : Msg) : Prop :=
  128 ≤ m.status ∧ m.status < 256 ∧ m.status ≠ MIDI_RESET ∧
    m.data.length = MidiHandler.messageLength m.status ∧ ∀ b ∈ m.data, b < 128

instance (m : Msg) : Decidable m.Complete := by
  unfold Complete; infer_instance

/-- A complete channel-voice message: the status nibble is `0x8` to `0xE`. -/
def ChannelVoice (m : Msg) : Prop :=
  m.Complete ∧ m.status < 0xF0

instance (m : Msg) : Decidable m.ChannelVoice := by
  unfold ChannelVoice; infer_instance

/-- The bytes of a slot after the message has been written into it: the status
byte at position 0 and the data bytes at the positions that follow; a position
the message does not reach keeps its byte. -/
def slot (m : Msg) (e : MidiEvent) : MidiEvent :=
  { b0 := m.status, b1 := m.data.getD 0 e.b1, b2 := m.data.getD 1 e.b2 }

end Msg

namespace MidiHandler

/-- The handler after a complete message has been decoded into the slot at the
write cursor. -/
def afterMsg (N : Nat) (h : MidiHandler) (m : Msg) : MidiHandler :=
  { h with
    m_MsgBuffer := setSlot h.m_MsgBuffer h.m_CurrentWriteIndex
      (m.slot (h.m_MsgBuffer h.m_CurrentWriteIndex))
    m_WorkingStatusByte := m.status
    m_WorkingMessageLength := messageLength m.status
    m_WorkingDataByteIndex := m.data.length
    m_CurrentWriteIndex := (h.m_CurrentWriteIndex + 1) % N }

/-- The events that draining `k` slots from read cursor `r` publishes. -/
def drained {F : Type} [Field F] (cm : CMath F) (N : Nat) (h : MidiHandler) (k : Nat) :
    List (Published F) :=
  (List.range k).flatMap fun i =>
    publishEvents cm h.m_SemitonesToPitchBend (h.m_MsgBuffer ((h.m_CurrentReadIndex + i) % N))

/-- The events the specification expects `dispatchEvents` to publish for one
message `m` decoded into a slot that held `e` (section 4.2): the generic raw
event, then a key event for Note-On (`0x9`) and Note-Off (`0x8`) or a pitch
event for Pitch-Bend (`0xE`), with the 14-bit value `LSB | MSB≪7` normalised by
`(value/16383)*2 − 1` and the factor `2^(normalized * semitoneRange / 12)`. -/
def specEvents {F : Type} [Field F] (cm : CMath F) (semitoneRange : Nat) (e : MidiEvent)
    (m : Msg) : List (Published F) :=
  Published.midi (m.slot e) ::
    (if m.status / 16 = 0xE then
      [Published.pitch ⟨cm.powf 2
        (((((m.data.getD 1 0 * 128 + m.data.getD 0 0 : Nat) : F) / 16383) * 2 - 1) *
          (semitoneRange : F) / 12)⟩]
    else if m.status / 16 = 0x9 then
      [Published.key ⟨KeyPressedEnum.PRESSED, m.data.getD 0 0, m.data.getD 1 0⟩]
    else if m.status / 16 = 0x8 then
      [Published.key ⟨KeyPressedEnum.RELEASED, m.data.getD 0 0, m.data.getD 1 0⟩]
    else [])

/-- The events the specification expects for the messages `msgs`, in arrival
order, the `i`-th of them decoded into slot `i`. -/
def specDispatch {F : Type} [Field F] (cm : CMath F) (semitoneRange : Nat)
    (slots : Nat → MidiEvent) (msgs : List Msg) : List (Published F) :=
  (List.range msgs.length).flatMap fun i =>
    match msgs[i]? with
    | some m => specEvents cm semitoneRange (slots i) m
    | none => []

/-- The generic raw events among the published events, in order. -/
def rawEvents {F : Type} : List (Published F) → List MidiEvent
  | [] => []
  | Published.midi e :: rest => e :: rawEvents rest
  | _ :: rest => rawEvents rest

/-- The events the specification expects for one drained message with bytes
`[s, d1, d2]` (section 4.2): the generic raw event once, then one typed event
chosen by the high nibble of `s`: a pitch event for `0xE`, `KeyEvent{Pressed, d1,
d2}` for `0x9`, `KeyEvent{Released, d1, d2}` for `0x8`, and none otherwise. -/
def specClassify {F : Type} [Field F] (cm : CMath F) (semitoneRange : Nat) (e : MidiEvent) :
    List (Published F) :=
  [Published.midi e] ++
    (if e.b0 / 16 = 0xE then [Published.pitch ⟨pitchBendFactor cm e.b1 e.b2 semitoneRange⟩]
    else if e.b0 / 16 = 0x9 then [Published.key ⟨KeyPressedEnum.PRESSED, e.b1, e.b2⟩]
    else if e.b0 / 16 = 0x8 then [Published.key ⟨KeyPressedEnum.RELEASED, e.b1, e.b2⟩]
    else [])

/-- The slots that two successive `nextMidiMessage` calls return, each as the
bytes of the slot, `none` for `nullptr`. -/
def nextTwoMessages (N : Nat) (h : MidiHandler) : Option MidiEvent × Option MidiEvent :=
  let first := nextMidiMessage N h
  let second := nextMidiMessage N first.1
  (first.2.map h.m_MsgBuffer, second.2.map h.m_MsgBuffer)

end MidiHandler

/-! ## Call sequences and store positions -/

namespace MidiHandler

/-- The expected data length the specification gives for a status byte (section
4.1): 2 for Note-Off, Note-On, Poly-Aftertouch and Pitch-Bend, 1 for
Control-Change, Program-Change and Channel-Aftertouch, 1 for Time-Code, 2 for
Song-Position, 1 for Song-Select, and 0 for every other status, Reset included. -/
def specMessageLength (b : Nat) : Nat :=
  if b / 16 = 0x8 ∨ b / 16 = 0x9 ∨ b / 16 = 0xA ∨ b / 16 = 0xE then 2
  else if b / 16 = 0xB ∨ b / 16 = 0xC ∨ b / 16 = 0xD then 1
  else if b = 0xF1 then 1
  else if b = 0xF2 then 2
  else if b = 0xF3 then 1
  else 0

/-- The byte positions inside a slot at which one `processByte` call stores, in
order: position 0 for a status byte (line 29), the incremented data index for a
data byte within the expected length (line 113), positions 0 and 1 in the
running-status branch (lines 118 and 120). -/
def storePositions (h : MidiHandler) (byte : Nat) : List Nat :=
  if byte &&& MIDI_STATUS_BYTE ≠ 0 then [0]
  else if h.m_WorkingDataByteIndex + 1 ≤ h.m_WorkingMessageLength then
    [h.m_WorkingDataByteIndex + 1]
  else [0, 1]

/-- One call on a `MidiHandler` from its owner. -/
inductive Call where
  | processByte (byte : Nat)
  | nextMidiMessage
  | dispatchEvents
deriving DecidableEq, Repr

/-- The handler after one call. `dispatchEvents` runs with fuel for
`MIDI_BUFFER_SIZE` iterations. -/
def applyCall {F : Type} [Field F] (cm : CMath F) (MIDI_BUFFER_SIZE : Nat) (h : MidiHandler) :
    Call → Option MidiHandler
  | Call.processByte byte => processByte MIDI_BUFFER_SIZE h byte
  | Call.nextMidiMessage => some (nextMidiMessage MIDI_BUFFER_SIZE h).1
  | Call.dispatchEvents =>
    (dispatchEvents cm MIDI_BUFFER_SIZE MIDI_BUFFER_SIZE h).map Prod.fst

/-- The handler after a sequence of calls, in order. -/
def runCalls {F : Type} [Field F] (cm : CMath F) (MIDI_BUFFER_SIZE : Nat) (h : MidiHandler)
    (calls : List Call) : Option MidiHandler :=
  calls.foldlM (applyCall cm MIDI_BUFFER_SIZE) h

/-- The cursor bounds: both cursors and the slot index that `processByte` uses for
a data byte (line 108) are below the number of slots. -/
def CursorsInBounds (MIDI_BUFFER_SIZE : Nat) (h : MidiHandler) : Prop :=
  h.m_CurrentReadIndex < MIDI_BUFFER_SIZE ∧ h.m_CurrentWriteIndex < MIDI_BUFFER_SIZE ∧
    (h.m_CurrentWriteIndex + MIDI_BUFFER_SIZE - 1) % MIDI_BUFFER_SIZE < MIDI_BUFFER_SIZE

end MidiHandler

/-- Whether the `if / else if` of the PolyBLEP correction takes one of its two
branches, both of which divide by `dt` (lines 35 and 40, 51 and 56). -/
def polyBLEPDivides {F : Type} [LinearOrderedField F] (t dt : F) : Prop :=
  t < dt ∨ t > 1 - dt

namespace PolyBLEPOsc

variable {F : Type} [LinearOrderedField F] [FloorRing F]

/-- One call on a `PolyBLEPOsc` from its owner. -/
inductive Call (F : Type) where
  | setFrequency (frequency : F)
  | setOscillatorMode (mode : OscillatorMode)
  | nextSample

/-- The oscillator after one call. -/
def applyCall (cm : CMath F) (SAMPLE_RATE : F) (o : PolyBLEPOsc F) : Call F → PolyBLEPOsc F
  | Call.setFrequency frequency => setFrequency cm SAMPLE_RATE o frequency
  | Call.setOscillatorMode mode => setOscillatorMode o mode
  | Call.nextSample => (nextSample cm o).2

/-- The oscillator after a sequence of calls, in order. -/
def runCalls (cm : CMath F) (SAMPLE_RATE : F) (o : PolyBLEPOsc F) (calls : List (Call F)) :
    PolyBLEPOsc F :=
  calls.foldl (applyCall cm SAMPLE_RATE) o

/-- The samples that the `nextSample` calls of a sequence of calls return, in
order. -/
def runOutputs (cm : CMath F) (SAMPLE_RATE : F) : PolyBLEPOsc F → List (Call F) → List F
  | _, [] => []
  | o, Call.nextSample :: calls =>
    (nextSample cm o).1 :: runOutputs cm SAMPLE_RATE (nextSample cm o).2 calls
  | o, c :: calls => runOutputs cm SAMPLE_RATE (applyCall cm SAMPLE_RATE o c) calls

/-- Whether a `nextSample` call on `o` takes a branch that divides by `dt`: for the
first correction in every mode but Sine (lines 33-42), for the second in Square
and Triangle mode (lines 49-58). -/
def dividesByDt (cm : CMath F) (o : PolyBLEPOsc F) : Prop :=
  o.m_OscMode ≠ OscillatorMode.SINE ∧
    (polyBLEPDivides (|o.m_Phase| / (2 * cm.M_PI)) (|o.m_PhaseIncr| / (2 * cm.M_PI)) ∨
      ((o.m_OscMode = OscillatorMode.SQUARE ∨ o.m_OscMode = OscillatorMode.TRIANGLE) ∧
        polyBLEPDivides (fmod ((|o.m_Phase| / (2 * cm.M_PI)) + 1 / 2) 1)
          (|o.m_PhaseIncr| / (2 * cm.M_PI))))

/-- The band-limited square value that `nextSample` computes in Square and
Triangle mode (lines 44-72), before the Triangle filter. -/
def squareOut (cm : CMath F) (o : PolyBLEPOsc F) : F :=
  (if o.m_Phase < cm.M_PI then 1 else -1) +
      polyBLEP (|o.m_Phase| / (2 * cm.M_PI)) (|o.m_PhaseIncr| / (2 * cm.M_PI)) -
    polyBLEP (fmod ((|o.m_Phase| / (2 * cm.M_PI)) + 1 / 2) 1) (|o.m_PhaseIncr| / (2 * cm.M_PI))

end PolyBLEPOsc

/-! ## Evaluation on small inputs -/

example : (MidiHandler.dispatchEvents realMath 4 10
    (MidiHandler.new fun _ => ⟨0, 0, 0⟩)).map (·.2) = some [] := by rfl

example : ((MidiHandler.processBytes 4 (MidiHandler.new fun _ => ⟨0, 0, 0⟩)
    [0x90, 60, 100, 0x80, 60, 0]).bind
      (MidiHandler.dispatchEvents realMath 4 10)).map (·.2) =
    some [Published.midi ⟨0x90, 60, 100⟩, Published.key ⟨KeyPressedEnum.PRESSED, 60, 100⟩,
      Published.midi ⟨0x80, 60, 0⟩, Published.key ⟨KeyPressedEnum.RELEASED, 60, 0⟩] := by rfl

example : polyBLEP (1 / 8 : ℚ) (1 / 4) = -1 / 4 := by norm_num [polyBLEP]

/-! ## Status and data bytes -/

@[simp] theorem setSlot_same (buffer : Nat → MidiEvent) (i : Nat) (e : MidiEvent) :
    setSlot buffer i e i = e := by
  simp [setSlot]

@[simp] theorem setSlot_setSlot (buffer : Nat → MidiEvent) (i : Nat) (e1 e2 : MidiEvent) :
    setSlot (setSlot buffer i e1) i e2 = setSlot buffer i e2 := by
  funext j
  by_cases h : j = i <;> simp [setSlot, h]

theorem setSlot_ne {i j : Nat} (h : j ≠ i) (buffer : Nat → MidiEvent) (e : MidiEvent) :
    setSlot buffer i e j = buffer j := by
  simp [setSlot, h]

theorem status_bit_of_ge {s : Nat} (h1 : 128 ≤ s) (h2 : s < 256) : s &&& MIDI_STATUS_BYTE ≠ 0 := by
  interval_cases s <;> decide

theorem status_bit_of_lt {b : Nat} (h : b < 128) : b &&& MIDI_STATUS_BYTE = 0 := by
  interval_cases b <;> decide

theorem messageLength_le_two {s : Nat} (h2 : s < 256) (h3 : s ≠ MIDI_RESET) :
    MidiHandler.messageLength s ≤ 2 := by
  interval_cases s <;> first | decide | exact absurd rfl h3

/-! ## The dispatcher loop -/

namespace MidiHandler

theorem pending_eq {N r w : Nat} (hr : r < N) (hw : w < N) :
    (w + N - r) % N = if r ≤ w then w - r else w + N - r := by
  split
  · next h =>
    have e : w + N - r = (w - r) + N := by omega
    rw [e, Nat.add_mod_right, Nat.mod_eq_of_lt (by omega)]
  · next h => exact Nat.mod_eq_of_lt (by omega)

theorem succ_mod_eq {N r : Nat} (hr : r < N) :
    (r + 1) % N = if r + 1 = N then 0 else r + 1 := by
  split
  · next h => rw [h, Nat.mod_self]
  · next h => exact Nat.mod_eq_of_lt (by omega)

theorem pending_succ {N r w k : Nat} (hr : r < N) (hw : w < N)
    (hk : (w + N - r) % N = k + 1) : (w + N - (r + 1) % N) % N = k := by
  rw [pending_eq hr hw] at hk
  rw [pending_eq (Nat.mod_lt _ (by omega)) hw, succ_mod_eq hr]
  split_ifs at hk ⊢ <;> omega

theorem dispatchEvents_step {F : Type} [Field F] (cm : CMath F) (N fuel : Nat) (h : MidiHandler) :
    dispatchEvents cm N fuel h =
      if h.m_CurrentReadIndex = h.m_CurrentWriteIndex then some (h, [])
      else match fuel with
        | 0 => none
        | f + 1 =>
          (dispatchEvents cm N f
            { h with m_CurrentReadIndex := (h.m_CurrentReadIndex + 1) % N }).map fun r =>
              (r.1, publishEvents cm h.m_SemitonesToPitchBend
                (h.m_MsgBuffer h.m_CurrentReadIndex) ++ r.2) := by
  unfold dispatchEvents nextMidiMessage
  by_cases e : h.m_CurrentReadIndex = h.m_CurrentWriteIndex
  · simp [e, dispatchLoop]
  · cases fuel <;> simp [e, dispatchLoop, nextMidiMessage]

theorem dispatchEvents_eq {F : Type} [Field F] (cm : CMath F) (N : Nat) :
    ∀ (k fuel : Nat) (h : MidiHandler), h.m_CurrentReadIndex < N → h.m_CurrentWriteIndex < N →
      (h.m_CurrentWriteIndex + N - h.m_CurrentReadIndex) % N = k →
      dispatchEvents cm N fuel h =
        if k ≤ fuel then
          some ({ h with m_CurrentReadIndex := h.m_CurrentWriteIndex }, drained cm N h k)
        else none := by
  intro k
  induction k with
  | zero =>
    intro fuel h hr hw hk
    rw [pending_eq hr hw] at hk
    have e : h.m_CurrentReadIndex = h.m_CurrentWriteIndex := by split_ifs at hk <;> omega
    rw [dispatchEvents_step]
    cases h
    simp_all [drained]
  | succ k ih =>
    intro fuel h hr hw hk
    have ne : h.m_CurrentReadIndex ≠ h.m_CurrentWriteIndex := by
      rw [pending_eq hr hw] at hk
      split_ifs at hk <;> omega
    rw [dispatchEvents_step, if_neg ne]
    cases fuel with
    | zero => simp
    | succ f =>
      have hN : 0 < N := by omega
      simp only []
      rw [ih f { h with m_CurrentReadIndex := (h.m_CurrentReadIndex + 1) % N }
        (Nat.mod_lt _ hN) hw (pending_succ hr hw hk)]
      by_cases hf : k ≤ f
      · simp only [hf, if_true, Nat.add_le_add_iff_right, Option.map_some']
        congr 2
        simp only [drained, List.range_succ_eq_map, List.flatMap_cons, List.flatMap_map,
          Nat.add_zero, Nat.mod_eq_of_lt hr]
        congr 2
        funext i
        simp only [Function.comp, Nat.succ_eq_add_one]
        rw [Nat.mod_add_mod, Nat.add_assoc, Nat.add_comm 1 i]
      · simp [hf]

/-! ## Decoding one complete message -/

theorem prev_succ_mod {N w : Nat} (hw : w < N) : ((w + 1) % N + N - 1) % N = w := by
  rw [succ_mod_eq hw]
  split
  · next h =>
    have e : 0 + N - 1 = w := by omega
    rw [e]
    exact Nat.mod_eq_of_lt hw
  · next h =>
    have e : w + 1 + N - 1 = w + N := by omega
    rw [e, Nat.add_mod_right, Nat.mod_eq_of_lt hw]

theorem processBytes_msg (N : Nat) (h : MidiHandler) (m : Msg)
    (hw : h.m_CurrentWriteIndex < N) (hm : m.Complete) :
    processBytes N h m.bytes = some (afterMsg N h m) := by
  obtain ⟨s, data⟩ := m
  obtain ⟨h1, h2, h3, h4, h5⟩ := hm
  simp only at h1 h2 h3 h4 h5
  have hs := status_bit_of_ge h1 h2
  have hl := messageLength_le_two h2 h3
  have hp := prev_succ_mod hw
  match data, h4, h5 with
  | [], h4, _ =>
    simp [processBytes, Msg.bytes, processByte, hs, MidiEvent.store, afterMsg, Msg.slot]
  | [d1], h4, h5 =>
    have hd1 := status_bit_of_lt (h5 d1 (by simp))
    simp only [List.length_singleton] at h4
    simp [processBytes, Msg.bytes, processByte, hs, hd1, MidiEvent.store, afterMsg, Msg.slot,
      ← h4, hp]
  | [d1, d2], h4, h5 =>
    have hd1 := status_bit_of_lt (h5 d1 (by simp))
    have hd2 := status_bit_of_lt (h5 d2 (by simp))
    simp only [List.length_cons, List.length_nil] at h4
    simp [processBytes, Msg.bytes, processByte, hs, hd1, hd2, MidiEvent.store, afterMsg, Msg.slot,
      ← h4, hp]
  | _ :: _ :: _ :: _, h4, _ =>
    simp only [List.length_cons] at h4
    omega

/-! ## Decoding a stream of complete messages -/

theorem processBytes_append (N : Nat) (h : MidiHandler) (xs ys : List Nat) :
    processBytes N h (xs ++ ys) = (processBytes N h xs).bind fun h1 => processBytes N h1 ys := by
  simp only [processBytes, List.foldlM_append]
  rfl

theorem processBytes_msgs (N : Nat) (h0 : MidiHandler) (hw0 : h0.m_CurrentWriteIndex = 0) :
    ∀ msgs : List Msg, (∀ m ∈ msgs, m.Complete) → msgs.length ≤ N →
      ∃ h, processBytes N h0 (msgs.flatMap Msg.bytes) = some h ∧
        h.m_CurrentReadIndex = h0.m_CurrentReadIndex ∧
        h.m_CurrentWriteIndex = msgs.length % N ∧
        h.m_SemitonesToPitchBend = h0.m_SemitonesToPitchBend ∧
        (∀ i m, msgs[i]? = some m → h.m_MsgBuffer i = m.slot (h0.m_MsgBuffer i)) ∧
        (∀ i, msgs.length ≤ i → h.m_MsgBuffer i = h0.m_MsgBuffer i) := by
  intro msgs
  induction msgs using List.reverseRecOn with
  | nil =>
    intro _ _
    exact ⟨h0, by simp [processBytes], rfl, by simp [hw0], rfl, by simp, by simp⟩
  | append_singleton l a ih =>
    intro hc hlen
    simp only [List.length_append, List.length_singleton] at hlen
    obtain ⟨h, e, hr, hw, hs, hb, hb2⟩ :=
      ih (fun m hm => hc m (List.mem_append_left _ hm)) (by omega)
    have hwl : h.m_CurrentWriteIndex = l.length := by
      rw [hw]; exact Nat.mod_eq_of_lt (by omega)
    have ha : a.Complete := hc a (by simp)
    refine ⟨afterMsg N h a, ?_, hr, ?_, hs, ?_, ?_⟩
    · rw [List.flatMap_append, processBytes_append, e]
      simp only [List.flatMap_cons, List.flatMap_nil, List.append_nil, Option.some_bind]
      exact processBytes_msg N h a (by omega) ha
    · simp [afterMsg, hwl]
    · intro i m hi
      by_cases hil : i < l.length
      · rw [List.getElem?_append_left hil] at hi
        have ne : i ≠ l.length := by omega
        simp only [afterMsg, hwl, setSlot_ne ne]
        exact hb i m hi
      · have hi2 : i = l.length := by
          have := (List.getElem?_eq_some.1 hi).1
          simp only [List.length_append, List.length_singleton] at this
          omega
        subst hi2
        rw [List.getElem?_append_right (Nat.le_refl _)] at hi
        simp only [Nat.sub_self, List.getElem?_cons_zero, Option.some.injEq] at hi
        subst hi
        simp only [afterMsg, hwl, setSlot_same]
        rw [hb2 _ (Nat.le_refl _)]
    · intro i hi
      simp only [List.length_append, List.length_singleton] at hi
      have ne : i ≠ l.length := by omega
      simp only [afterMsg, hwl, setSlot_ne ne]
      exact hb2 i (by omega)

/-! ## The dispatcher against the specification -/

theorem toShort_of_lt {x : Nat} (h : x < 32768) : toShort x = (x : Int) := by
  unfold toShort
  rw [Nat.mod_eq_of_lt (by omega), if_pos h]

theorem pitchBendVal_eq {lsb msb : Nat} (hl : lsb < 128) (hm : msb < 128) :
    pitchBendVal lsb msb = ((msb * 128 + lsb : Nat) : Int) := by
  unfold pitchBendVal
  have e : msb <<< 7 ||| lsb = msb * 128 + lsb := by
    rw [Nat.shiftLeft_eq, Nat.mul_comm msb, ← Nat.mul_add_lt_is_or (by simpa using hl)]
  rw [e]
  exact toShort_of_lt (by omega)

theorem publishEvents_slot {F : Type} [Field F] (cm : CMath F) (n : Nat) (e : MidiEvent)
    (m : Msg) (hm : m.ChannelVoice) : publishEvents cm n (m.slot e) = specEvents cm n e m := by
  obtain ⟨s, data⟩ := m
  obtain ⟨⟨h1, h2, h3, h4, h5⟩, h6⟩ := hm
  simp only at h1 h2 h3 h4 h5 h6
  have hq : 8 ≤ s / 16 ∧ s / 16 ≤ 14 := by omega
  simp only [messageLength, Nat.shiftRight_eq_div_pow, Nat.pow_succ, Nat.pow_zero,
    Nat.one_mul, Nat.reduceMul] at h4
  simp only [publishEvents, specEvents, MidiEvent.isPitchBend, MidiEvent.isNoteOn,
    MidiEvent.isNoteOff, Msg.slot, Nat.shiftRight_eq_div_pow, Nat.pow_succ, Nat.pow_zero,
    Nat.one_mul, Nat.reduceMul, beq_iff_eq]
  generalize s / 16 = q at hq h4 ⊢
  obtain ⟨hq1, hq2⟩ := hq
  interval_cases q
  all_goals simp at h4 ⊢
  all_goals
    obtain ⟨d1, d2, rfl⟩ := List.length_eq_two.1 h4
    simp [pitchBendFactor, pitchBendNormalized,
      pitchBendVal_eq (h5 d1 (by simp)) (h5 d2 (by simp))]

/-! ## Claims on the decoder and the dispatcher -/

/-- C1: the code at the bytes `[0x90, 60, 100, 64, 90]`. The running-status
branch stores the remembered status byte and the data byte 64 through the pointer
to the slot of the first message, so that slot becomes `[0x90, 64, 100]`; the slot
the write cursor has moved past receives only the byte 90 at position 2. The
dispatcher publishes the Note-On `{note=64, vel=100}`, then the raw event of a slot
whose status byte and first data byte are still the initial ones; the events
`{note=60, vel=100}` and `{note=64, vel=90}` are never published. -/
theorem C1_running_status_overwrites_first_slot {F : Type} [Field F] (cm : CMath F)
    (N fuel : Nat) (slots : Nat → MidiEvent) (hN : 2 < N) (hfuel : 2 ≤ fuel) :
    ((processBytes N (new slots) [0x90, 60, 100, 64, 90]).bind
        (dispatchEvents cm N fuel)).map Prod.snd =
      some ([Published.midi ⟨0x90, 64, 100⟩, Published.key ⟨KeyPressedEnum.PRESSED, 64, 100⟩] ++
        publishEvents cm 1 ⟨(slots 1).b0, (slots 1).b1, 90⟩) := by
  obtain ⟨f, rfl⟩ : ∃ f, fuel = f + 2 := ⟨fuel - 2, by omega⟩
  have h1 : 1 % N = 1 := Nat.mod_eq_of_lt (by omega)
  have h2 : 2 % N = 2 := Nat.mod_eq_of_lt (by omega)
  have h3 : (1 + N - 1) % N = 0 := by
    rw [Nat.add_sub_cancel_left, Nat.mod_self]
  have h4 : (2 + N - 1) % N = 1 := by
    have e : 2 + N - 1 = 1 + N := by omega
    rw [e, Nat.add_mod_right, h1]
  have e : processBytes N (new slots) [0x90, 60, 100, 64, 90] =
      some { m_MsgBuffer := setSlot (setSlot slots 0 ⟨0x90, 64, 100⟩) 1
               ⟨(slots 1).b0, (slots 1).b1, 90⟩
             m_WorkingStatusByte := 0x90
             m_WorkingMessageLength := 2
             m_WorkingDataByteIndex := 2
             m_CurrentWriteIndex := 2
             m_CurrentReadIndex := 0
             m_SemitonesToPitchBend := 1 } := by
    simp [processBytes, processByte, new, messageLength, MidiEvent.store, h1, h2, h3, h4,
      setSlot_ne, MIDI_NOTE_OFF_NUM_DATA, status_bit_of_lt (by decide : 60 < 128),
      status_bit_of_lt (by decide : 100 < 128), status_bit_of_lt (by decide : 64 < 128),
      status_bit_of_lt (by decide : 90 < 128)]
  rw [e]
  simp only [Option.some_bind]
  rw [dispatchEvents_step]
  simp only [OfNat.zero_ne_ofNat, if_false, Nat.zero_add, h1]
  rw [dispatchEvents_step]
  simp only [OfNat.one_ne_ofNat, if_false, Nat.reduceAdd, h2]
  rw [dispatchEvents_step]
  simp [publishEvents, MidiEvent.isPitchBend, MidiEvent.isNoteOn, MidiEvent.isNoteOff, setSlot]

/-- C1, at capacity 4 with all-zero initial slots: the published events are the raw
event `[0x90, 64, 100]`, the Note-On `{note=64, vel=100}` and the raw event
`[0, 0, 90]`. -/
theorem C1_running_status_overwrites_first_slot_witness :
    ((processBytes 4 (new fun _ => ⟨0, 0, 0⟩) [0x90, 60, 100, 64, 90]).bind
        (dispatchEvents realMath 4 2)).map Prod.snd =
      some [Published.midi ⟨0x90, 64, 100⟩, Published.key ⟨KeyPressedEnum.PRESSED, 64, 100⟩,
        Published.midi ⟨0, 0, 90⟩] :=
  C1_running_status_overwrites_first_slot realMath 4 2 (fun _ => ⟨0, 0, 0⟩) (by decide)
    (by decide)

/-- C2, as stated, fails: with a buffer of 4 slots, four complete Note-On messages,
each sent with its own status byte, bring the write cursor back to the read cursor,
and the following `dispatchEvents` publishes no event at all. -/
theorem C2_full_buffer_dispatches_nothing :
    (∀ m ∈ [Msg.mk 0x90 [60, 100], Msg.mk 0x90 [62, 101], Msg.mk 0x90 [64, 102],
        Msg.mk 0x90 [65, 103]], m.ChannelVoice) ∧
    ((processBytes 4 (new fun _ => ⟨0, 0, 0⟩)
        ([Msg.mk 0x90 [60, 100], Msg.mk 0x90 [62, 101], Msg.mk 0x90 [64, 102],
          Msg.mk 0x90 [65, 103]].flatMap Msg.bytes)).bind
        (dispatchEvents realMath 4 10)).map Prod.snd = some [] :=
  ⟨by decide, by rfl⟩

/-- C2 (amended): for every buffer capacity `N`, every semitone range `n` and every
sequence of fewer than `N` complete channel-voice messages, each sent with its own
status byte, fed to `processByte` on a freshly constructed handler, a following
`dispatchEvents` returns (given fuel for one iteration per message) and publishes,
in arrival order, for each message its generic raw event followed by the key event
with its note and velocity (Note-On, Note-Off) or the pitch event with its bend
factor (Pitch-Bend), and nothing else. -/
theorem C2_explicit_status_messages_dispatched {F : Type} [Field F] (cm : CMath F)
    (N n fuel : Nat) (slots : Nat → MidiEvent) (msgs : List Msg)
    (hcv : ∀ m ∈ msgs, m.ChannelVoice) (hlen : msgs.length < N) (hfuel : msgs.length ≤ fuel) :
    ((processBytes N (setNumberOfSemitonesToPitchBend (new slots) n)
        (msgs.flatMap Msg.bytes)).bind (dispatchEvents cm N fuel)).map Prod.snd =
      some (specDispatch cm n slots msgs) := by
  obtain ⟨h, e, hr, hw, hs, hb, _⟩ :=
    processBytes_msgs N (setNumberOfSemitonesToPitchBend (new slots) n) rfl msgs
      (fun m hm => (hcv m hm).1) (Nat.le_of_lt hlen)
  rw [Nat.mod_eq_of_lt hlen] at hw
  have hr0 : h.m_CurrentReadIndex = 0 := hr
  have hs0 : h.m_SemitonesToPitchBend = n := hs
  have hk : (h.m_CurrentWriteIndex + N - h.m_CurrentReadIndex) % N = msgs.length := by
    rw [hw, hr0, Nat.sub_zero, Nat.add_mod_right, Nat.mod_eq_of_lt hlen]
  rw [e, Option.some_bind,
    dispatchEvents_eq cm N msgs.length fuel h (by omega) (by omega) hk, if_pos hfuel]
  simp only [Option.map_some', drained, specDispatch, hr0, hs0, Nat.zero_add]
  congr 1
  apply List.flatMap_congr
  intro i hi
  have hi2 : i < msgs.length := List.mem_range.1 hi
  rw [Nat.mod_eq_of_lt (by omega), List.getElem?_eq_getElem hi2]
  simp only []
  rw [hb i _ (List.getElem?_eq_getElem hi2)]
  exact publishEvents_slot cm n _ _ (hcv _ (List.getElem_mem hi2))

/-- C2 (amended), at capacity 4: a Note-On, a Note-Off and a Pitch-Bend message. -/
theorem C2_explicit_status_messages_dispatched_witness :
    ((processBytes 4 (setNumberOfSemitonesToPitchBend (new fun _ => ⟨0, 0, 0⟩) 2)
        ([Msg.mk 0x90 [60, 100], Msg.mk 0x80 [60, 0], Msg.mk 0xE0 [0, 64]].flatMap
          Msg.bytes)).bind (dispatchEvents realMath 4 3)).map Prod.snd =
      some (specDispatch realMath 2 (fun _ => ⟨0, 0, 0⟩)
        [Msg.mk 0x90 [60, 100], Msg.mk 0x80 [60, 0], Msg.mk 0xE0 [0, 64]]) :=
  C2_explicit_status_messages_dispatched realMath 4 2 3 (fun _ => ⟨0, 0, 0⟩)
    [Msg.mk 0x90 [60, 100], Msg.mk 0x80 [60, 0], Msg.mk 0xE0 [0, 64]] (by decide) (by decide)
    (by decide)

/-- C3, as stated, fails: with a buffer of 4 slots, after five complete messages
without draining, the first `nextMidiMessage` call returns the slot that holds the
fifth message and the second call already returns `nullptr`; the second, third and
fourth messages are not returned. -/
theorem C3_lapped_buffer_returns_one_message :
    (∀ m ∈ [Msg.mk 0x90 [60, 100], Msg.mk 0x91 [62, 101], Msg.mk 0x92 [64, 102],
        Msg.mk 0x93 [65, 103], Msg.mk 0x94 [67, 104]], m.Complete) ∧
    (processBytes 4 (new fun _ => ⟨0, 0, 0⟩)
        ([Msg.mk 0x90 [60, 100], Msg.mk 0x91 [62, 101], Msg.mk 0x92 [64, 102],
          Msg.mk 0x93 [65, 103], Msg.mk 0x94 [67, 104]].flatMap Msg.bytes)).map
        (nextTwoMessages 4) = some (some ⟨0x94, 67, 104⟩, none) :=
  ⟨by decide, by rfl⟩

/-- C3 (amended): with buffer capacity `N ≥ 2`, after `N + 1` complete messages
(each opened by its own status byte) have been fed to a freshly constructed handler
without draining, the first message has been overwritten in slot 0 by the last one,
and successive `nextMidiMessage` calls return exactly one message, the most recent
one, before returning `nullptr`. -/
theorem C3_one_message_after_lap (N : Nat) (slots : Nat → MidiEvent) (first : Msg)
    (mid : List Msg) (last : Msg) (hN : mid.length + 1 = N) (h2 : 2 ≤ N)
    (hc : ∀ m ∈ first :: (mid ++ [last]), m.Complete) :
    (processBytes N (new slots) ((first :: (mid ++ [last])).flatMap Msg.bytes)).map
        (nextTwoMessages N) = some (some (last.slot (first.slot (slots 0))), none) := by
  have hsplit : first :: (mid ++ [last]) = (first :: mid) ++ [last] := rfl
  rw [hsplit] at hc ⊢
  obtain ⟨h, e, hr, hw, _, hb, _⟩ :=
    processBytes_msgs N (new slots) rfl (first :: mid)
      (fun m hm => hc m (List.mem_append_left _ hm)) (by simp; omega)
  have hr0 : h.m_CurrentReadIndex = 0 := hr
  have hw0 : h.m_CurrentWriteIndex = 0 := by
    rw [hw, List.length_cons, hN, Nat.mod_self]
  have hb0 : h.m_MsgBuffer 0 = first.slot (slots 0) := hb 0 first (by simp)
  have h1 : 1 % N = 1 := Nat.mod_eq_of_lt (by omega)
  rw [List.flatMap_append, processBytes_append, e]
  simp only [List.flatMap_cons, List.flatMap_nil, List.append_nil, Option.some_bind]
  rw [processBytes_msg N h last (by omega) (hc last (by simp))]
  simp [nextTwoMessages, nextMidiMessage, afterMsg, hr0, hw0, hb0, h1]

/-- C3 (amended), at capacity 2 with three Note-On messages. -/
theorem C3_one_message_after_lap_witness :
    (processBytes 2 (new fun _ => ⟨0, 0, 0⟩)
        ((Msg.mk 0x90 [60, 100] :: ([Msg.mk 0x91 [62, 101]] ++ [Msg.mk 0x92 [64, 102]])).flatMap
          Msg.bytes)).map (nextTwoMessages 2) =
      some (some ((Msg.mk 0x92 [64, 102]).slot ((Msg.mk 0x90 [60, 100]).slot ⟨0, 0, 0⟩)), none) :=
  C3_one_message_after_lap 2 (fun _ => ⟨0, 0, 0⟩) (Msg.mk 0x90 [60, 100]) [Msg.mk 0x91 [62, 101]]
    (Msg.mk 0x92 [64, 102]) (by decide) (by decide) (by decide)

/-! ## Pitch bend over the reals -/

theorem pitchBendFactor_real (lsb msb n : Nat) (hl : lsb < 128) (hm : msb < 128) :
    pitchBendFactor realMath lsb msb n =
      (2 : ℝ) ^ ((((((msb * 128 + lsb : Nat) : ℝ) / 16383) * 2 - 1) * (n : ℝ)) / 12) := by
  simp only [pitchBendFactor, pitchBendNormalized, realMath, pitchBendVal_eq hl hm,
    Int.cast_natCast]

theorem dispatch_pitch_bend_message {F : Type} [Field F] (cm : CMath F) (N n fuel : Nat)
    (slots : Nat → MidiEvent) (lsb msb : Nat) (hl : lsb < 128) (hm : msb < 128)
    (hN : 1 < N) (hfuel : 1 ≤ fuel) :
    ((processBytes N (setNumberOfSemitonesToPitchBend (new slots) n) [0xE0, lsb, msb]).bind
        (dispatchEvents cm N fuel)).map Prod.snd =
      some [Published.midi ⟨0xE0, lsb, msb⟩,
        Published.pitch ⟨pitchBendFactor cm lsb msb n⟩] := by
  obtain ⟨f, rfl⟩ : ∃ f, fuel = f + 1 := ⟨fuel - 1, by omega⟩
  have h1 : 1 % N = 1 := Nat.mod_eq_of_lt hN
  have h3 : (1 + N - 1) % N = 0 := by
    rw [Nat.add_sub_cancel_left, Nat.mod_self]
  have e : processBytes N (setNumberOfSemitonesToPitchBend (new slots) n) [0xE0, lsb, msb] =
      some { m_MsgBuffer := setSlot slots 0 ⟨0xE0, lsb, msb⟩
             m_WorkingStatusByte := 0xE0
             m_WorkingMessageLength := 2
             m_WorkingDataByteIndex := 2
             m_CurrentWriteIndex := 1
             m_CurrentReadIndex := 0
             m_SemitonesToPitchBend := n } := by
    simp [processBytes, processByte, new, setNumberOfSemitonesToPitchBend, messageLength,
      MidiEvent.store, h1, h3, MIDI_PITCH_BEND_NUM_DATA, status_bit_of_lt hl,
      status_bit_of_lt hm]
  rw [e]
  simp only [Option.some_bind]
  rw [dispatchEvents_step]
  simp only [OfNat.zero_ne_ofNat, if_false, Nat.zero_add, h1]
  rw [dispatchEvents_step]
  simp [publishEvents, MidiEvent.isPitchBend]

theorem pitchBendFactor_centre (n : Nat) :
    pitchBendFactor realMath 0 64 n = (2 : ℝ) ^ ((n : ℝ) / 196596) := by
  rw [pitchBendFactor_real 0 64 n (by decide) (by decide)]
  congr 1
  push_cast
  ring

theorem centre_factor_eq_one_iff (n : Nat) : (2 : ℝ) ^ ((n : ℝ) / 196596) = 1 ↔ n = 0 := by
  constructor
  · intro h
    by_contra hn
    have hpos : (0 : ℝ) < (n : ℝ) / 196596 :=
      div_pos (Nat.cast_pos.2 (Nat.pos_of_ne_zero hn)) (by norm_num)
    have := Real.one_lt_rpow (by norm_num : (1 : ℝ) < 2) hpos
    linarith
  · intro h
    subst h
    simp

/-- C4, as stated, fails: with the default semitone range 1 the message
`[0xE0, 0, 64]` does not publish a PitchEvent with bend factor 1.0. -/
theorem C4_centre_factor_is_not_one :
    ((processBytes 4 (setNumberOfSemitonesToPitchBend (new fun _ => ⟨0, 0, 0⟩) 1)
        [0xE0, 0, 64]).bind (dispatchEvents realMath 4 1)).map Prod.snd ≠
      some [Published.midi ⟨0xE0, 0, 64⟩, Published.pitch ⟨1⟩] := by
  rw [dispatch_pitch_bend_message realMath 4 1 1 _ 0 64 (by decide) (by decide) (by decide)
    (by decide), pitchBendFactor_centre]
  intro h
  simp only [Option.some.injEq, List.cons.injEq, Published.pitch.injEq, PitchEvent.mk.injEq,
    and_true, true_and] at h
  have := (centre_factor_eq_one_iff 1).1 h
  omega

/-- C4 (amended): for every semitone range `n` set through
`setNumberOfSemitonesToPitchBend`, dispatching the message `[0xE0, 0, 64]` (14-bit
value 8192, normalised value `1/16383`) publishes the raw event and a PitchEvent
whose bend factor is `2^(n/196596)`; that factor is 1.0 exactly when `n = 0`. -/
theorem C4_centre_factor (N n fuel : Nat) (slots : Nat → MidiEvent) (hN : 1 < N)
    (hfuel : 1 ≤ fuel) :
    ((processBytes N (setNumberOfSemitonesToPitchBend (new slots) n) [0xE0, 0, 64]).bind
        (dispatchEvents realMath N fuel)).map Prod.snd =
        some [Published.midi ⟨0xE0, 0, 64⟩, Published.pitch ⟨(2 : ℝ) ^ ((n : ℝ) / 196596)⟩] ∧
      pitchBendVal 0 64 = 8192 ∧
      (pitchBendNormalized (pitchBendVal 0 64) : ℝ) = 1 / 16383 ∧
      ((2 : ℝ) ^ ((n : ℝ) / 196596) = 1 ↔ n = 0) := by
  refine ⟨?_, by decide, ?_, centre_factor_eq_one_iff n⟩
  · rw [dispatch_pitch_bend_message realMath N n fuel slots 0 64 (by decide) (by decide) hN
      hfuel, pitchBendFactor_centre]
  · rw [pitchBendVal_eq (by decide) (by decide)]
    simp only [pitchBendNormalized]
    norm_num

/-- C4 (amended), at capacity 4 with semitone range 2: the published bend factor
is `2^(2/196596)`. -/
theorem C4_centre_factor_witness :
    ((processBytes 4 (setNumberOfSemitonesToPitchBend (new fun _ => ⟨0, 0, 0⟩) 2)
        [0xE0, 0, 64]).bind (dispatchEvents realMath 4 1)).map Prod.snd =
      some [Published.midi ⟨0xE0, 0, 64⟩,
        Published.pitch ⟨(2 : ℝ) ^ (((2 : Nat) : ℝ) / 196596)⟩] :=
  (C4_centre_factor 4 2 1 (fun _ => ⟨0, 0, 0⟩) (by decide) (by decide)).1

/-- C5: for data bytes `lsb`, `msb` in 0..127 and every semitone range `n`, the
14-bit value `(msb << 7) | lsb` lies in 0..16383, the normalised value
`(v/16383)*2 - 1` lies in [-1, 1], and the bend factor `2^(normalised*n/12)` that
`dispatchEvents` publishes for a Pitch-Bend message with these data bytes is
positive and lies in `[2^(-n/12), 2^(n/12)]`; the value 16383 gives exactly
`2^(n/12)` and the value 0 gives exactly `2^(-n/12)`. -/
theorem C5_pitch_bend_range (s lsb msb n : Nat) (hs : s / 16 = 0xE) (hl : lsb < 128)
    (hm : msb < 128) :
    publishEvents realMath n ⟨s, lsb, msb⟩ =
        [Published.midi ⟨s, lsb, msb⟩, Published.pitch ⟨pitchBendFactor realMath lsb msb n⟩] ∧
      0 ≤ pitchBendVal lsb msb ∧ pitchBendVal lsb msb ≤ 16383 ∧
      (-1 : ℝ) ≤ pitchBendNormalized (pitchBendVal lsb msb) ∧
      (pitchBendNormalized (pitchBendVal lsb msb) : ℝ) ≤ 1 ∧
      0 < pitchBendFactor realMath lsb msb n ∧
      (2 : ℝ) ^ (-(n : ℝ) / 12) ≤ pitchBendFactor realMath lsb msb n ∧
      pitchBendFactor realMath lsb msb n ≤ (2 : ℝ) ^ ((n : ℝ) / 12) ∧
      (pitchBendVal lsb msb = 16383 → pitchBendFactor realMath lsb msb n = (2 : ℝ) ^ ((n : ℝ) / 12)) ∧
      (pitchBendVal lsb msb = 0 → pitchBendFactor realMath lsb msb n = (2 : ℝ) ^ (-(n : ℝ) / 12)) := by
  have hv := pitchBendVal_eq hl hm
  have hv0 : (0 : ℝ) ≤ ((msb * 128 + lsb : Nat) : ℝ) := Nat.cast_nonneg _
  have hv1 : ((msb * 128 + lsb : Nat) : ℝ) ≤ 16383 := by
    have : msb * 128 + lsb ≤ 16383 := by omega
    exact_mod_cast this
  have hn : (0 : ℝ) ≤ (n : ℝ) := Nat.cast_nonneg _
  have hlo : (-1 : ℝ) ≤ (((msb * 128 + lsb : Nat) : ℝ) / 16383) * 2 - 1 := by
    have : 0 ≤ ((msb * 128 + lsb : Nat) : ℝ) / 16383 := div_nonneg hv0 (by norm_num)
    linarith
  have hhi : (((msb * 128 + lsb : Nat) : ℝ) / 16383) * 2 - 1 ≤ 1 := by
    have : ((msb * 128 + lsb : Nat) : ℝ) / 16383 ≤ 1 := by
      rw [div_le_one (by norm_num)]; exact hv1
    linarith
  have hnorm : (pitchBendNormalized (pitchBendVal lsb msb) : ℝ) =
      (((msb * 128 + lsb : Nat) : ℝ) / 16383) * 2 - 1 := by
    simp only [pitchBendNormalized, hv, Int.cast_natCast]
  have hf := pitchBendFactor_real lsb msb n hl hm
  refine ⟨?_, ?_, ?_, ?_, ?_, ?_, ?_, ?_, ?_, ?_⟩
  · simp [publishEvents, MidiEvent.isPitchBend, Nat.shiftRight_eq_div_pow, hs]
  · rw [hv]; exact Int.natCast_nonneg _
  · rw [hv]
    have : msb * 128 + lsb ≤ 16383 := by omega
    exact_mod_cast this
  · rw [hnorm]; exact hlo
  · rw [hnorm]; exact hhi
  · rw [hf]; exact Real.rpow_pos_of_pos (by norm_num) _
  · rw [hf]
    apply Real.rpow_le_rpow_of_exponent_le (by norm_num)
    have : -(n : ℝ) ≤ ((((msb * 128 + lsb : Nat) : ℝ) / 16383) * 2 - 1) * (n : ℝ) := by
      nlinarith
    linarith
  · rw [hf]
    apply Real.rpow_le_rpow_of_exponent_le (by norm_num)
    have : ((((msb * 128 + lsb : Nat) : ℝ) / 16383) * 2 - 1) * (n : ℝ) ≤ (n : ℝ) := by
      nlinarith
    linarith
  · intro h
    rw [hv] at h
    have h2 : msb * 128 + lsb = 16383 := by exact_mod_cast h
    rw [hf, h2]
    norm_num
  · intro h
    rw [hv] at h
    have h2 : msb * 128 + lsb = 0 := by exact_mod_cast h
    rw [hf, h2]
    norm_num

/-- C5, with semitone range 2 and both data bytes 127 (value 16383): the bend factor
is `2^(2/12)`. -/
theorem C5_pitch_bend_range_witness :
    pitchBendFactor realMath 127 127 2 = (2 : ℝ) ^ (((2 : Nat) : ℝ) / 12) :=
  (C5_pitch_bend_range 0xE0 127 127 2 (by decide) (by decide) (by decide)).2.2.2.2.2.2.2.2.1
    (by decide)

end MidiHandler

/-! ## The oscillator in Sine mode -/

namespace PolyBLEPOsc

theorem advancePhase_fields (o : PolyBLEPOsc ℝ) :
    (advancePhase realMath o).m_OscMode = o.m_OscMode ∧
      (advancePhase realMath o).m_PhaseIncr = o.m_PhaseIncr ∧
      ∃ m : ℤ, (advancePhase realMath o).m_Phase =
        o.m_Phase + o.m_PhaseIncr + (m : ℝ) * (2 * Real.pi) := by
  unfold advancePhase
  simp only [realMath]
  split_ifs
  · exact ⟨rfl, rfl, -1, by push_cast; ring⟩
  · exact ⟨rfl, rfl, 1, by push_cast; ring⟩
  · exact ⟨rfl, rfl, 0, by push_cast; ring⟩

theorem waveform_sine (o : PolyBLEPOsc ℝ) (h : o.m_OscMode = OscillatorMode.SINE) :
    waveform realMath o = (Real.sin o.m_Phase, o) := by
  simp [waveform, h, realMath]

theorem afterSamples_sine (o : PolyBLEPOsc ℝ) (h : o.m_OscMode = OscillatorMode.SINE) (k : Nat) :
    (afterSamples realMath o k).m_OscMode = OscillatorMode.SINE ∧
      (afterSamples realMath o k).m_PhaseIncr = o.m_PhaseIncr ∧
      ∃ m : ℤ, (afterSamples realMath o k).m_Phase =
        o.m_Phase + (k : ℝ) * o.m_PhaseIncr + (m : ℝ) * (2 * Real.pi) := by
  induction k with
  | zero => exact ⟨h, rfl, 0, by simp [afterSamples]⟩
  | succ k ih =>
    obtain ⟨hm, hi, m, hp⟩ := ih
    obtain ⟨am, ai, m2, ap⟩ := advancePhase_fields (afterSamples realMath o k)
    simp only [afterSamples, nextSample, waveform_sine _ hm]
    refine ⟨am.trans hm, ai.trans hi, m + m2, ?_⟩
    rw [ap, hp, hi]
    push_cast
    ring

/-- C6: for every frequency `f` (positive, zero or negative) and every `k ≥ 0`, the
`(k+1)`-th `nextSample` result of a freshly constructed oscillator (Sine mode)
after `setFrequency(f)` equals `sin(k*d)` with `d = 2*pi*f/sampleRate`, in exact
real arithmetic, whether or not the phase has been wrapped by `±2*pi`. -/
theorem C6_sine_fidelity (SAMPLE_RATE f : ℝ) (k : Nat) :
    nthSample realMath (setFrequency realMath SAMPLE_RATE new f) k =
      Real.sin ((k : ℝ) * ((f * 2 * Real.pi) / SAMPLE_RATE)) := by
  obtain ⟨hm, _, m, hp⟩ :=
    afterSamples_sine (setFrequency realMath SAMPLE_RATE new f) rfl k
  simp only [nthSample, nextSample, waveform_sine _ hm, hp]
  rw [Real.sin_add_int_mul_two_pi]
  simp [setFrequency, new, realMath]

end PolyBLEPOsc

/-! ## The PolyBLEP correction -/

theorem polyBLEP_of_lt {t dt : ℝ} (h : t < dt) :
    polyBLEP t dt = 2 * (t / dt) - (t / dt) ^ 2 - 1 := by
  simp only [polyBLEP, if_pos h]
  ring

theorem polyBLEP_of_gt {t dt : ℝ} (h1 : ¬ t < dt) (h2 : t > 1 - dt) :
    polyBLEP t dt = ((t - 1) / dt) ^ 2 + 2 * ((t - 1) / dt) + 1 := by
  simp only [polyBLEP, if_neg h1, if_pos h2]
  ring

theorem polyBLEP_of_mid {t dt : ℝ} (h1 : ¬ t < dt) (h2 : ¬ t > 1 - dt) : polyBLEP t dt = 0 := by
  simp only [polyBLEP, if_neg h1, if_neg h2]

theorem polyBLEP_lower_window {t dt : ℝ} (h0 : 0 ≤ t) (h : t < dt) :
    -1 ≤ polyBLEP t dt ∧ polyBLEP t dt < 0 ∧ (0 < t → -1 < polyBLEP t dt) := by
  have hd : 0 < dt := lt_of_le_of_lt h0 h
  have hu0 : 0 ≤ t / dt := div_nonneg h0 hd.le
  have hu1 : t / dt < 1 := (div_lt_one hd).2 h
  rw [polyBLEP_of_lt h]
  refine ⟨by nlinarith, by nlinarith, ?_⟩
  intro ht
  have hu : 0 < t / dt := div_pos ht hd
  nlinarith

theorem polyBLEP_upper_window {t dt : ℝ} (hd : 0 < dt) (h1 : ¬ t < dt) (h2 : t > 1 - dt)
    (h3 : t ≤ 1) :
    0 < polyBLEP t dt ∧ polyBLEP t dt ≤ 1 ∧ (t < 1 → polyBLEP t dt < 1) := by
  have hu0 : -1 < (t - 1) / dt := by
    rw [lt_div_iff₀ hd]; linarith
  have hu1 : (t - 1) / dt ≤ 0 := div_nonpos_of_nonpos_of_nonneg (by linarith) hd.le
  rw [polyBLEP_of_gt h1 h2]
  refine ⟨by nlinarith, by nlinarith, ?_⟩
  intro ht
  have hu : (t - 1) / dt < 0 := div_neg_of_neg_of_pos (by linarith) hd
  nlinarith

theorem fmod_one_of_lt {y : ℝ} (h0 : 0 ≤ y) (h1 : y < 1) : fmod y 1 = y := by
  have hf : ⌊y⌋ = 0 := Int.floor_eq_iff.2 ⟨by simpa using h0, by simpa using h1⟩
  simp [fmod, h0, hf]

theorem fmod_one_of_ge {y : ℝ} (h1 : 1 ≤ y) (h2 : y < 2) : fmod y 1 = y - 1 := by
  have hf : ⌊y⌋ = 1 := Int.floor_eq_iff.2 ⟨by simpa using h1, by norm_num; linarith⟩
  have h0 : 0 ≤ y := by linarith
  simp [fmod, h0, hf]

/-- The Sawtooth output at normalised phase `x`: the naive ramp minus the correction. -/
theorem saw_before_wrap {x d : ℝ} (hd0 : 0 < d) (hd1 : d < 1 / 2) (hx0 : 1 - d < x)
    (hx1 : x ≤ 1) : -1 < 2 * x - 1 - polyBLEP x d ∧ 2 * x - 1 - polyBLEP x d < 1 := by
  have h1 : ¬ x < d := by
    intro hc; linarith
  obtain ⟨a, b, _⟩ := polyBLEP_upper_window hd0 h1 hx0 hx1
  constructor <;> linarith

theorem saw_after_wrap {x d : ℝ} (hd1 : d < 1 / 2) (hx0 : 0 < x) (hx1 : x ≤ d) :
    -1 < 2 * x - 1 - polyBLEP x d ∧ 2 * x - 1 - polyBLEP x d < 1 := by
  rcases lt_or_eq_of_le hx1 with h | h
  · obtain ⟨a, b, c⟩ := polyBLEP_lower_window hx0.le h
    have := c hx0
    constructor <;> linarith
  · have h1 : ¬ x < d := by
      intro hc; linarith
    have h2 : ¬ x > 1 - d := by
      intro hc; linarith
    rw [polyBLEP_of_mid h1 h2]
    constructor <;> linarith

theorem square_before_wrap {x d : ℝ} (hd0 : 0 < d) (hd1 : d < 1 / 2) (hx0 : 1 - d < x)
    (hx1 : x ≤ 1) :
    -1 < -1 + polyBLEP x d - polyBLEP (fmod (x + 1 / 2) 1) d ∧
      -1 + polyBLEP x d - polyBLEP (fmod (x + 1 / 2) 1) d ≤ 1 := by
  have h1 : ¬ x < d := by
    intro hc; linarith
  obtain ⟨a, b, _⟩ := polyBLEP_upper_window hd0 h1 hx0 hx1
  rw [fmod_one_of_ge (by linarith) (by linarith)]
  by_cases h : x + 1 / 2 - 1 < d
  · obtain ⟨a2, b2, _⟩ := polyBLEP_lower_window (by linarith) h
    constructor <;> linarith
  · have h2 : ¬ x + 1 / 2 - 1 > 1 - d := by
      intro hc; linarith
    rw [polyBLEP_of_mid h h2]
    constructor <;> linarith

theorem square_after_wrap {x d : ℝ} (hd0 : 0 < d) (hd1 : d < 1 / 2) (hx0 : 0 < x)
    (hx1 : x ≤ d) :
    -1 < 1 + polyBLEP x d - polyBLEP (fmod (x + 1 / 2) 1) d ∧
      1 + polyBLEP x d - polyBLEP (fmod (x + 1 / 2) 1) d ≤ 1 := by
  rw [fmod_one_of_lt (by linarith) (by linarith)]
  have hA : -1 < polyBLEP x d ∧ polyBLEP x d ≤ 0 := by
    rcases lt_or_eq_of_le hx1 with h | h
    · obtain ⟨_, b, c⟩ := polyBLEP_lower_window hx0.le h
      exact ⟨c hx0, b.le⟩
    · have h1 : ¬ x < d := by
        intro hc; linarith
      have h2 : ¬ x > 1 - d := by
        intro hc; linarith
      rw [polyBLEP_of_mid h1 h2]
      constructor <;> norm_num
  have h3 : ¬ x + 1 / 2 < d := by
    intro hc; linarith
  have hB : 0 ≤ polyBLEP (x + 1 / 2) d ∧ polyBLEP (x + 1 / 2) d < 1 := by
    by_cases h : x + 1 / 2 > 1 - d
    · obtain ⟨a, _, c⟩ := polyBLEP_upper_window hd0 h3 h (by linarith)
      exact ⟨a.le, c (by linarith)⟩
    · rw [polyBLEP_of_mid h3 h]
      constructor <;> norm_num
  constructor <;> linarith

/-- C8: for every normalised phase `t` in [0, 1] and normalised increment `dt` with
`0 < dt < 1/2`, the correction term that `nextSample` computes (in Sawtooth mode
the output is the naive ramp minus this term) is non-zero exactly when `t < dt` or
`t > 1 - dt`, is 0 for `dt ≤ t ≤ 1 - dt`, equals `2t' - t'^2 - 1` with
`t' = t/dt` in the first window and `t'^2 + 2t' + 1` with `t' = (t-1)/dt` in the
second. -/
theorem C8_correction_window (t dt : ℝ) (ht0 : 0 ≤ t) (ht1 : t ≤ 1) (hd0 : 0 < dt)
    (hd1 : dt < 1 / 2) :
    (∀ o : PolyBLEPOsc ℝ, o.m_OscMode = OscillatorMode.SAWTOOTH →
        |o.m_Phase| / (2 * Real.pi) = t → |o.m_PhaseIncr| / (2 * Real.pi) = dt →
        (PolyBLEPOsc.nextSample realMath o).1 =
          ((2 * o.m_Phase) / (2 * Real.pi) - 1) - polyBLEP t dt) ∧
      (polyBLEP t dt ≠ 0 ↔ (t < dt ∨ t > 1 - dt)) ∧
      (dt ≤ t → t ≤ 1 - dt → polyBLEP t dt = 0) ∧
      (t < dt → polyBLEP t dt = 2 * (t / dt) - (t / dt) ^ 2 - 1) ∧
      (t > 1 - dt → polyBLEP t dt = ((t - 1) / dt) ^ 2 + 2 * ((t - 1) / dt) + 1) := by
  refine ⟨?_, ?_, ?_, ?_, ?_⟩
  · intro o hm e1 e2
    simp [PolyBLEPOsc.nextSample, PolyBLEPOsc.waveform, hm, realMath, e1, e2]
  · constructor
    · intro h
      by_contra hc
      push_neg at hc
      exact h (polyBLEP_of_mid (not_lt.2 hc.1) (not_lt.2 hc.2))
    · rintro (h | h)
      · exact ne_of_lt (polyBLEP_lower_window ht0 h).2.1
      · have h1 : ¬ t < dt := by
          intro hc; linarith
        exact ne_of_gt (polyBLEP_upper_window hd0 h1 h ht1).1
  · intro h1 h2
    exact polyBLEP_of_mid (not_lt.2 h1) (not_lt.2 h2)
  · intro h
    exact polyBLEP_of_lt h
  · intro h
    have h1 : ¬ t < dt := by
      intro hc; linarith
    exact polyBLEP_of_gt h1 h

/-- C8, at `t = 1/8` and `dt = 1/4`: in the first window, where `t' = 1/2`, the
correction is `2*(1/2) - (1/2)^2 - 1`. -/
theorem C8_correction_window_witness :
    polyBLEP (1 / 8 : ℝ) (1 / 4) = 2 * ((1 / 8 : ℝ) / (1 / 4)) - ((1 / 8 : ℝ) / (1 / 4)) ^ 2 - 1 :=
  (C8_correction_window (1 / 8) (1 / 4) (by norm_num) (by norm_num) (by norm_num)
    (by norm_num)).2.2.2.1 (by norm_num)

namespace PolyBLEPOsc

theorem waveform_saw (o : PolyBLEPOsc ℝ) (hm : o.m_OscMode = OscillatorMode.SAWTOOTH)
    (hp : 0 ≤ o.m_Phase) (hi : 0 ≤ o.m_PhaseIncr) :
    waveform realMath o =
      (2 * (o.m_Phase / (2 * Real.pi)) - 1 -
        polyBLEP (o.m_Phase / (2 * Real.pi)) (o.m_PhaseIncr / (2 * Real.pi)), o) := by
  simp only [waveform, hm, realMath, abs_of_nonneg hp, abs_of_nonneg hi]
  simp [mul_div_assoc]

theorem waveform_square (o : PolyBLEPOsc ℝ) (hm : o.m_OscMode = OscillatorMode.SQUARE)
    (hp : 0 ≤ o.m_Phase) (hi : 0 ≤ o.m_PhaseIncr) :
    waveform realMath o =
      ((if o.m_Phase < Real.pi then 1 else -1) +
          polyBLEP (o.m_Phase / (2 * Real.pi)) (o.m_PhaseIncr / (2 * Real.pi)) -
        polyBLEP (fmod (o.m_Phase / (2 * Real.pi) + 1 / 2) 1) (o.m_PhaseIncr / (2 * Real.pi)),
        o) := by
  simp only [waveform, hm, realMath, abs_of_nonneg hp, abs_of_nonneg hi]
  simp

/-- C7: in Sawtooth mode and in Square mode, for every positive increment below
Nyquist (`0 < dt < 1/2`) and every phase `p` in `[0, 2*pi]` from which the next
call wraps (`p + phaseIncrement > 2*pi`), the phase after the call is
`p + phaseIncrement - 2*pi`, and the `nextSample` output at `p` and the following
output differ in absolute value by strictly less than 2. -/
theorem C7_antialiased_jump (o : PolyBLEPOsc ℝ)
    (hmode : o.m_OscMode = OscillatorMode.SAWTOOTH ∨ o.m_OscMode = OscillatorMode.SQUARE)
    (hp0 : 0 ≤ o.m_Phase) (hp1 : o.m_Phase ≤ 2 * Real.pi)
    (hd0 : 0 < o.m_PhaseIncr / (2 * Real.pi)) (hd1 : o.m_PhaseIncr / (2 * Real.pi) < 1 / 2)
    (hwrap : o.m_Phase + o.m_PhaseIncr > 2 * Real.pi) :
    (nextSample realMath o).2.m_Phase = o.m_Phase + o.m_PhaseIncr - 2 * Real.pi ∧
      |(nextSample realMath o).1 - (nextSample realMath (nextSample realMath o).2).1| < 2 := by
  have hpi : 0 < 2 * Real.pi := by positivity
  have hi0 : 0 < o.m_PhaseIncr := by
    rcases (div_pos_iff.1 hd0) with h | h
    · exact h.1
    · linarith [h.2]
  have hi1 : o.m_PhaseIncr < Real.pi := by
    rw [div_lt_iff₀ hpi] at hd1; linarith
  have hx0 : 1 - o.m_PhaseIncr / (2 * Real.pi) < o.m_Phase / (2 * Real.pi) := by
    rw [sub_lt_iff_lt_add, ← add_div, lt_div_iff₀ hpi]; linarith
  have hx1 : o.m_Phase / (2 * Real.pi) ≤ 1 := (div_le_one hpi).2 hp1
  -- the oscillator after the first call
  have hadv : ∀ q : PolyBLEPOsc ℝ, q.m_Phase = o.m_Phase → q.m_PhaseIncr = o.m_PhaseIncr →
      advancePhase realMath q = { q with m_Phase := o.m_Phase + o.m_PhaseIncr - 2 * Real.pi } := by
    intro q e1 e2
    simp only [advancePhase, realMath, e1, e2, if_pos hwrap]
  have hy0 : 0 < (o.m_Phase + o.m_PhaseIncr - 2 * Real.pi) / (2 * Real.pi) :=
    div_pos (by linarith) hpi
  have hy1 : (o.m_Phase + o.m_PhaseIncr - 2 * Real.pi) / (2 * Real.pi) ≤
      o.m_PhaseIncr / (2 * Real.pi) :=
    div_le_div_of_nonneg_right (by linarith) hpi.le
  have hlt : o.m_Phase + o.m_PhaseIncr - 2 * Real.pi < Real.pi := by linarith
  have hge : ¬ o.m_Phase < Real.pi := by
    intro hc; linarith
  rcases hmode with hm | hm
  · have e1 : nextSample realMath o =
        (2 * (o.m_Phase / (2 * Real.pi)) - 1 -
          polyBLEP (o.m_Phase / (2 * Real.pi)) (o.m_PhaseIncr / (2 * Real.pi)),
          { o with m_Phase := o.m_Phase + o.m_PhaseIncr - 2 * Real.pi }) := by
      simp only [nextSample, waveform_saw o hm hp0 hi0.le, hadv o rfl rfl]
    rw [e1]
    refine ⟨rfl, ?_⟩
    simp only [nextSample]
    rw [waveform_saw { o with m_Phase := o.m_Phase + o.m_PhaseIncr - 2 * Real.pi } hm
      (by simp only; linarith) hi0.le]
    simp only []
    obtain ⟨a1, a2⟩ := saw_before_wrap hd0 hd1 hx0 hx1
    obtain ⟨b1, b2⟩ := saw_after_wrap hd1 hy0 hy1
    rw [abs_lt]
    constructor <;> linarith
  · have e1 : nextSample realMath o =
        (-1 + polyBLEP (o.m_Phase / (2 * Real.pi)) (o.m_PhaseIncr / (2 * Real.pi)) -
          polyBLEP (fmod (o.m_Phase / (2 * Real.pi) + 1 / 2) 1)
            (o.m_PhaseIncr / (2 * Real.pi)),
          { o with m_Phase := o.m_Phase + o.m_PhaseIncr - 2 * Real.pi }) := by
      simp only [nextSample, waveform_square o hm hp0 hi0.le, hadv o rfl rfl, if_neg hge]
    rw [e1]
    refine ⟨rfl, ?_⟩
    simp only [nextSample]
    rw [waveform_square { o with m_Phase := o.m_Phase + o.m_PhaseIncr - 2 * Real.pi } hm
      (by simp only; linarith) hi0.le]
    simp only [if_pos hlt]
    obtain ⟨a1, a2⟩ := square_before_wrap hd0 hd1 hx0 hx1
    obtain ⟨b1, b2⟩ := square_after_wrap hd0 hd1 hy0 hy1
    rw [abs_lt]
    constructor <;> linarith

/-- C7, in Sawtooth mode at phase `2*pi` with increment `pi/2` (`dt = 1/4`). -/
theorem C7_antialiased_jump_witness :
    (nextSample realMath
        (⟨2 * Real.pi, Real.pi / 2, 0, 0, 1, 0, OscillatorMode.SAWTOOTH⟩ : PolyBLEPOsc ℝ)).2.m_Phase =
        2 * Real.pi + Real.pi / 2 - 2 * Real.pi ∧
      |(nextSample realMath
          (⟨2 * Real.pi, Real.pi / 2, 0, 0, 1, 0, OscillatorMode.SAWTOOTH⟩ : PolyBLEPOsc ℝ)).1 -
        (nextSample realMath (nextSample realMath
          (⟨2 * Real.pi, Real.pi / 2, 0, 0, 1, 0, OscillatorMode.SAWTOOTH⟩ :
            PolyBLEPOsc ℝ)).2).1| < 2 :=
  C7_antialiased_jump ⟨2 * Real.pi, Real.pi / 2, 0, 0, 1, 0, OscillatorMode.SAWTOOTH⟩
    (Or.inl rfl) (by positivity) (le_refl _) (by positivity)
    (by
      have hpi := Real.pi_pos
      show Real.pi / 2 / (2 * Real.pi) < 1 / 2
      rw [div_lt_iff₀ (by positivity)]
      linarith)
    (by
      have hpi := Real.pi_pos
      show 2 * Real.pi + Real.pi / 2 > 2 * Real.pi
      linarith)

end PolyBLEPOsc

/-! ## Claims on the dispatcher loop -/

namespace MidiHandler

theorem rawEvents_append {F : Type} (xs ys : List (Published F)) :
    rawEvents (xs ++ ys) = rawEvents xs ++ rawEvents ys := by
  induction xs with
  | nil => rfl
  | cons x xs ih => cases x <;> simp [rawEvents, ih]

theorem rawEvents_publishEvents {F : Type} [Field F] (cm : CMath F) (n : Nat) (e : MidiEvent) :
    rawEvents (publishEvents cm n e) = [e] := by
  unfold publishEvents
  split_ifs <;> simp [rawEvents]

theorem rawEvents_flatMap {F : Type} [Field F] (cm : CMath F) (n : Nat) (g : Nat → MidiEvent)
    (l : List Nat) :
    rawEvents (l.flatMap fun i => publishEvents cm n (g i)) = l.map g := by
  induction l with
  | nil => rfl
  | cons i l ih =>
    simp only [List.flatMap_cons, rawEvents_append, rawEvents_publishEvents, ih, List.map_cons,
      List.singleton_append]

theorem publishEvents_eq_specClassify {F : Type} [Field F] (cm : CMath F) (n : Nat)
    (e : MidiEvent) : publishEvents cm n e = specClassify cm n e := by
  simp only [publishEvents, specClassify, MidiEvent.isPitchBend, MidiEvent.isNoteOn,
    MidiEvent.isNoteOff, Nat.shiftRight_eq_div_pow, beq_iff_eq, List.singleton_append]

/-- C9: for every handler state with read cursor `r` and write cursor `w` (both
`< N`), `dispatchEvents` ends after exactly `(w - r) mod N` loop iterations (it
returns with that much fuel and with no less), publishes the generic raw event for
the slots `r, r+1, ..., w-1` (indices mod `N`) in that order and for no other slot,
and returns with the read cursor equal to the write cursor, the write cursor and
every slot unchanged. -/
theorem C9_dispatch_drains {F : Type} [Field F] (cm : CMath F) (N fuel : Nat) (h : MidiHandler)
    (hr : h.m_CurrentReadIndex < N) (hw : h.m_CurrentWriteIndex < N) :
    (dispatchEvents cm N fuel h).isSome =
        decide ((h.m_CurrentWriteIndex + N - h.m_CurrentReadIndex) % N ≤ fuel) ∧
      ∀ r ∈ dispatchEvents cm N fuel h,
        r.1 = { h with m_CurrentReadIndex := h.m_CurrentWriteIndex } ∧
        r.1.m_CurrentReadIndex = r.1.m_CurrentWriteIndex ∧
        r.1.m_CurrentWriteIndex = h.m_CurrentWriteIndex ∧
        r.1.m_MsgBuffer = h.m_MsgBuffer ∧
        rawEvents r.2 =
          (List.range ((h.m_CurrentWriteIndex + N - h.m_CurrentReadIndex) % N)).map
            fun i => h.m_MsgBuffer ((h.m_CurrentReadIndex + i) % N) := by
  rw [dispatchEvents_eq cm N _ fuel h hr hw rfl]
  by_cases hf : (h.m_CurrentWriteIndex + N - h.m_CurrentReadIndex) % N ≤ fuel
  · simp only [hf, if_true, Option.isSome_some, decide_True, Option.mem_def,
      Option.some.injEq, true_and]
    rintro r rfl
    exact ⟨rfl, rfl, rfl, rfl, rawEvents_flatMap cm _ _ _⟩
  · simp [hf]

/-- C9, at capacity 4 with read cursor 3 and write cursor 1: two iterations, over
the slots 3 and 0. -/
theorem C9_dispatch_drains_witness :
    (dispatchEvents realMath 4 2
        { new (fun i => ⟨0x90, i, 100⟩) with
          m_CurrentReadIndex := 3, m_CurrentWriteIndex := 1 }).isSome = true ∧
      (dispatchEvents realMath 4 1
        { new (fun i => ⟨0x90, i, 100⟩) with
          m_CurrentReadIndex := 3, m_CurrentWriteIndex := 1 }).isSome = false :=
  ⟨(C9_dispatch_drains realMath 4 2
      { new (fun i => ⟨0x90, i, 100⟩) with m_CurrentReadIndex := 3, m_CurrentWriteIndex := 1 }
      (by decide) (by decide)).1,
    (C9_dispatch_drains realMath 4 1
      { new (fun i => ⟨0x90, i, 100⟩) with m_CurrentReadIndex := 3, m_CurrentWriteIndex := 1 }
      (by decide) (by decide)).1⟩

/-- C10: for every message drained by `dispatchEvents`, with bytes `[s, d1, d2]`,
the generic raw event is published exactly once, followed by exactly one typed
event chosen by the high nibble of `s`: a PitchEvent for `0xE`, `KeyEvent{Pressed,
d1, d2}` for `0x9` (whatever the velocity `d2`), `KeyEvent{Released, d1, d2}` for
`0x8`; for every other status no typed event is published. -/
theorem C10_dispatch_classification {F : Type} [Field F] (cm : CMath F) (N fuel : Nat)
    (h : MidiHandler) (hr : h.m_CurrentReadIndex < N) (hw : h.m_CurrentWriteIndex < N)
    (hfuel : (h.m_CurrentWriteIndex + N - h.m_CurrentReadIndex) % N ≤ fuel) :
    (dispatchEvents cm N fuel h).map Prod.snd =
      some ((List.range ((h.m_CurrentWriteIndex + N - h.m_CurrentReadIndex) % N)).flatMap
        fun i => specClassify cm h.m_SemitonesToPitchBend
          (h.m_MsgBuffer ((h.m_CurrentReadIndex + i) % N))) := by
  rw [dispatchEvents_eq cm N _ fuel h hr hw rfl, if_pos hfuel]
  simp only [Option.map_some', drained, publishEvents_eq_specClassify]

/-- C10, at capacity 4 with a Note-On of velocity 0, a Note-Off and a
Control-Change pending: two key events and one message with the raw event only. -/
theorem C10_dispatch_classification_witness :
    (dispatchEvents realMath 4 3
        { new (fun i => if i = 0 then ⟨0x90, 60, 0⟩ else if i = 1 then ⟨0x80, 60, 64⟩
            else ⟨0xB0, 7, 100⟩) with m_CurrentWriteIndex := 3 }).map Prod.snd =
      some [Published.midi ⟨0x90, 60, 0⟩, Published.key ⟨KeyPressedEnum.PRESSED, 60, 0⟩,
        Published.midi ⟨0x80, 60, 64⟩, Published.key ⟨KeyPressedEnum.RELEASED, 60, 64⟩,
        Published.midi ⟨0xB0, 7, 100⟩] :=
  C10_dispatch_classification realMath 4 3
    { new (fun i => if i = 0 then ⟨0x90, 60, 0⟩ else if i = 1 then ⟨0x80, 60, 64⟩
        else ⟨0xB0, 7, 100⟩) with m_CurrentWriteIndex := 3 } (by decide) (by decide) (by decide)

end MidiHandler

/-! ## The expected data length and the store positions -/

namespace MidiHandler

theorem messageLength_eq_spec {b : Nat} (h1 : 128 ≤ b) (h2 : b < 255) :
    messageLength b = specMessageLength b := by
  interval_cases b <;> decide

theorem processByte_status {N : Nat} (h : MidiHandler) {b : Nat} (h1 : 128 ≤ b) (h2 : b < 256) :
    (processByte N h b).map (fun r => r.m_WorkingMessageLength) = some (messageLength b) := by
  simp [processByte, status_bit_of_ge h1 h2, MidiEvent.store]

/-- C11: the code at the Reset status byte. After `processByte(0xFF)` the expected
data length is 255, the value of the constant `MIDI_RESET` that line 96 assigns,
where the table of the specification gives 0. -/
theorem C11_reset_length_is_status_constant (N : Nat) (h : MidiHandler) :
    (processByte N h 0xFF).map (fun r => r.m_WorkingMessageLength) = some 255 ∧
      specMessageLength 0xFF = 0 :=
  ⟨processByte_status h (by decide) (by decide), by decide⟩

theorem processBytes_reset_two (N : Nat) (slots : Nat → MidiEvent) :
    ∃ h, processBytes N (new slots) [0xFF, 1, 2] = some h ∧
      h.m_WorkingDataByteIndex = 2 ∧ h.m_WorkingMessageLength = 255 := by
  simp [processBytes, processByte, new, messageLength, MidiEvent.store, MIDI_RESET,
    status_bit_of_lt (by decide : 1 < 128), status_bit_of_lt (by decide : 2 < 128)]

/-- C18: the code at the bytes `[0xFF, 1, 2, 3]`. After the Reset status byte and
two data bytes the data index is 2 and the expected length is 255, so the third
data byte is stored at position 3, outside the three bytes of the slot; the
decoder has no defined result there. -/
theorem C18_store_past_slot_after_reset (N : Nat) (slots : Nat → MidiEvent) :
    (processBytes N (new slots) [0xFF, 1, 2]).map (fun h => storePositions h 3) = some [3] ∧
      processBytes N (new slots) [0xFF, 1, 2, 3] = none := by
  obtain ⟨h, e, hi, hl⟩ := processBytes_reset_two N slots
  constructor
  · rw [e]
    simp [storePositions, hi, hl, status_bit_of_lt (by decide : 3 < 128)]
  · have e2 : [0xFF, 1, 2, 3] = [0xFF, 1, 2] ++ [3] := rfl
    rw [e2, processBytes_append, e]
    simp [processBytes, processByte, hi, hl, MidiEvent.store,
      status_bit_of_lt (by decide : 3 < 128)]

/-- C16: for a freshly constructed handler with buffer capacity `N` and every
sequence of `m < N` messages, each a status byte other than Reset followed by
exactly the expected number `L` (0, 1 or 2) of data bytes, the decoder returns
with read cursor 0 and write cursor `m`, and for each `i < m` slot `i` holds the
`i`-th message's status byte at position 0 and its data bytes, in order, at
positions `1..L`. -/
theorem C16_explicit_status_slots (N : Nat) (slots : Nat → MidiEvent) (msgs : List Msg)
    (hc : ∀ m ∈ msgs, m.Complete) (hlen : msgs.length < N) :
    ∃ h, processBytes N (new slots) (msgs.flatMap Msg.bytes) = some h ∧
      h.m_CurrentReadIndex = 0 ∧ h.m_CurrentWriteIndex = msgs.length ∧
      ∀ i m, msgs[i]? = some m →
        (h.m_MsgBuffer i).b0 = m.status ∧
        (∀ d, m.data[0]? = some d → (h.m_MsgBuffer i).b1 = d) ∧
        (∀ d, m.data[1]? = some d → (h.m_MsgBuffer i).b2 = d) ∧
        m.data.length ≤ 2 := by
  obtain ⟨h, e, hr, hw, _, hb, _⟩ :=
    processBytes_msgs N (new slots) rfl msgs hc (Nat.le_of_lt hlen)
  refine ⟨h, e, hr, by rw [hw, Nat.mod_eq_of_lt hlen], ?_⟩
  intro i m hi
  have hm : m.Complete := hc m (List.getElem?_mem hi)
  rw [hb i m hi]
  refine ⟨rfl, ?_, ?_, ?_⟩
  · intro d hd
    simp [Msg.slot, List.getD, hd]
  · intro d hd
    simp [Msg.slot, List.getD, hd]
  · rw [hm.2.2.2.1]
    exact messageLength_le_two hm.2.1 hm.2.2.1

/-- C16, at capacity 4: a Note-On message followed by a Program-Change message. -/
theorem C16_explicit_status_slots_witness :
    ∃ h, processBytes 4 (new fun _ => ⟨0, 0, 0⟩)
        ([Msg.mk 0x90 [60, 100], Msg.mk 0xC0 [5]].flatMap Msg.bytes) = some h ∧
      h.m_CurrentReadIndex = 0 ∧
      h.m_CurrentWriteIndex = [Msg.mk 0x90 [60, 100], Msg.mk 0xC0 [5]].length ∧
      ∀ i m, [Msg.mk 0x90 [60, 100], Msg.mk 0xC0 [5]][i]? = some m →
        (h.m_MsgBuffer i).b0 = m.status ∧
        (∀ d, m.data[0]? = some d → (h.m_MsgBuffer i).b1 = d) ∧
        (∀ d, m.data[1]? = some d → (h.m_MsgBuffer i).b2 = d) ∧
        m.data.length ≤ 2 :=
  C16_explicit_status_slots 4 (fun _ => ⟨0, 0, 0⟩) [Msg.mk 0x90 [60, 100], Msg.mk 0xC0 [5]]
    (by decide) (by decide)

/-! ## The cursor bounds -/

theorem messageLength_le_two_of_ne {b : Nat} (hb : b ≠ 0xFF) : messageLength b ≤ 2 := by
  by_cases hlt : b < 256
  · interval_cases b <;> first | decide | exact absurd rfl hb
  · have hq : 16 ≤ b >>> 4 := by
      rw [Nat.shiftRight_eq_div_pow]
      omega
    have e : messageLength b = 0 := by
      simp only [messageLength]
      generalize b >>> 4 = q at hq
      rw [if_pos (show q ≠ 15 by omega), if_neg (show ¬ q = 8 by omega),
        if_neg (show ¬ q = 9 by omega), if_neg (show ¬ q = 10 by omega),
        if_neg (show ¬ q = 11 by omega), if_neg (show ¬ q = 12 by omega),
        if_neg (show ¬ q = 13 by omega), if_neg (show ¬ q = 14 by omega)]
    omega

theorem processByte_status_eq (N : Nat) (h : MidiHandler) {b : Nat}
    (hs : b &&& MIDI_STATUS_BYTE ≠ 0) :
    processByte N h b = some
      { h with
        m_WorkingStatusByte := b
        m_MsgBuffer := setSlot h.m_MsgBuffer h.m_CurrentWriteIndex
          { h.m_MsgBuffer h.m_CurrentWriteIndex with b0 := b }
        m_WorkingMessageLength := messageLength b
        m_WorkingDataByteIndex := 0
        m_CurrentWriteIndex := (h.m_CurrentWriteIndex + 1) % N } := by
  simp [processByte, hs, MidiEvent.store]

theorem processByte_data_eq (N : Nat) (h : MidiHandler) {b : Nat}
    (hs : ¬ b &&& MIDI_STATUS_BYTE ≠ 0)
    (hi : h.m_WorkingDataByteIndex + 1 ≤ h.m_WorkingMessageLength) :
    processByte N h b =
      ((h.m_MsgBuffer ((h.m_CurrentWriteIndex + N - 1) % N)).store
        (h.m_WorkingDataByteIndex + 1) b).map fun slot =>
        { h with
          m_WorkingDataByteIndex := h.m_WorkingDataByteIndex + 1
          m_MsgBuffer := setSlot h.m_MsgBuffer ((h.m_CurrentWriteIndex + N - 1) % N) slot } := by
  simp only [processByte, if_neg hs, if_pos hi]

theorem processByte_running_eq (N : Nat) (h : MidiHandler) {b : Nat}
    (hs : ¬ b &&& MIDI_STATUS_BYTE ≠ 0)
    (hi : ¬ h.m_WorkingDataByteIndex + 1 ≤ h.m_WorkingMessageLength) :
    processByte N h b = some
      { h with
        m_CurrentWriteIndex := (h.m_CurrentWriteIndex + 1) % N
        m_WorkingDataByteIndex := 1
        m_MsgBuffer := setSlot h.m_MsgBuffer ((h.m_CurrentWriteIndex + N - 1) % N)
          { h.m_MsgBuffer ((h.m_CurrentWriteIndex + N - 1) % N) with
            b0 := h.m_WorkingStatusByte, b1 := b } } := by
  simp [processByte, hs, hi, MidiEvent.store]

theorem processByte_cursors {N : Nat} (hN : 0 < N) {h h1 : MidiHandler} {b : Nat}
    (hr : h.m_CurrentReadIndex < N) (hw : h.m_CurrentWriteIndex < N)
    (e : processByte N h b = some h1) :
    h1.m_CurrentReadIndex < N ∧ h1.m_CurrentWriteIndex < N := by
  have hm : (h.m_CurrentWriteIndex + 1) % N < N := Nat.mod_lt _ hN
  by_cases hs : b &&& MIDI_STATUS_BYTE ≠ 0
  · rw [processByte_status_eq N h hs, Option.some.injEq] at e
    subst e
    exact ⟨hr, hm⟩
  · by_cases hi : h.m_WorkingDataByteIndex + 1 ≤ h.m_WorkingMessageLength
    · rw [processByte_data_eq N h hs hi, Option.map_eq_some'] at e
      obtain ⟨slot, _, rfl⟩ := e
      exact ⟨hr, hw⟩
    · rw [processByte_running_eq N h hs hi, Option.some.injEq] at e
      subst e
      exact ⟨hr, hm⟩

theorem processByte_defined {N : Nat} (h : MidiHandler) {b : Nat} (hb : b ≠ 0xFF)
    (hl : h.m_WorkingMessageLength ≤ 2) :
    ∃ h1, processByte N h b = some h1 ∧ h1.m_WorkingMessageLength ≤ 2 := by
  by_cases hs : b &&& MIDI_STATUS_BYTE ≠ 0
  · exact ⟨_, processByte_status_eq N h hs, messageLength_le_two_of_ne hb⟩
  · by_cases hi : h.m_WorkingDataByteIndex + 1 ≤ h.m_WorkingMessageLength
    · rw [processByte_data_eq N h hs hi]
      have hi2 : h.m_WorkingDataByteIndex + 1 = 1 ∨ h.m_WorkingDataByteIndex + 1 = 2 := by
        omega
      rcases hi2 with hi2 | hi2
      · simp only [hi2, MidiEvent.store, if_neg (by decide : ¬ (1 : Nat) = 0), if_true,
          Option.map_some']
        exact ⟨_, rfl, hl⟩
      · simp only [hi2, MidiEvent.store, if_neg (by decide : ¬ (2 : Nat) = 0),
          if_neg (by decide : ¬ (2 : Nat) = 1), if_true, Option.map_some']
        exact ⟨_, rfl, hl⟩
    · exact ⟨_, processByte_running_eq N h hs hi, hl⟩

theorem pending_lt {N w : Nat} (r : Nat) (hw : w < N) : (w + N - r) % N < N :=
  Nat.mod_lt _ (by omega)

theorem applyCall_cursors {F : Type} [Field F] (cm : CMath F) {N : Nat} (hN : 0 < N)
    {h h1 : MidiHandler} (c : Call) (hr : h.m_CurrentReadIndex < N)
    (hw : h.m_CurrentWriteIndex < N) (e : applyCall cm N h c = some h1) :
    h1.m_CurrentReadIndex < N ∧ h1.m_CurrentWriteIndex < N := by
  cases c with
  | processByte b => exact processByte_cursors hN hr hw e
  | nextMidiMessage =>
    simp only [applyCall, nextMidiMessage, Option.some.injEq] at e
    subst e
    split_ifs
    · exact ⟨Nat.mod_lt _ hN, hw⟩
    · exact ⟨hr, hw⟩
  | dispatchEvents =>
    simp only [applyCall] at e
    rw [dispatchEvents_eq cm N _ N h hr hw rfl, if_pos (Nat.le_of_lt (pending_lt _ hw))] at e
    simp only [Option.map_some', Option.some.injEq] at e
    subst e
    exact ⟨hw, hw⟩

theorem applyCall_defined {F : Type} [Field F] (cm : CMath F) {N : Nat} (h : MidiHandler)
    (c : Call) (hr : h.m_CurrentReadIndex < N) (hw : h.m_CurrentWriteIndex < N)
    (hl : h.m_WorkingMessageLength ≤ 2) (hc : c ≠ Call.processByte 0xFF) :
    ∃ h1, applyCall cm N h c = some h1 ∧ h1.m_WorkingMessageLength ≤ 2 := by
  cases c with
  | processByte b =>
    have hb : b ≠ 0xFF := by
      intro hb
      exact hc (by rw [hb])
    exact processByte_defined h hb hl
  | nextMidiMessage =>
    refine ⟨_, rfl, ?_⟩
    simp only [nextMidiMessage]
    split_ifs <;> exact hl
  | dispatchEvents =>
    simp only [applyCall]
    rw [dispatchEvents_eq cm N _ N h hr hw rfl, if_pos (Nat.le_of_lt (pending_lt _ hw))]
    exact ⟨_, rfl, hl⟩

theorem runCalls_cursors {F : Type} [Field F] (cm : CMath F) {N : Nat} (hN : 0 < N) :
    ∀ (calls : List Call) (h0 h : MidiHandler), h0.m_CurrentReadIndex < N →
      h0.m_CurrentWriteIndex < N → runCalls cm N h0 calls = some h →
      h.m_CurrentReadIndex < N ∧ h.m_CurrentWriteIndex < N := by
  intro calls
  induction calls with
  | nil =>
    intro h0 h hr hw e
    simp only [runCalls, List.foldlM_nil] at e
    cases e
    exact ⟨hr, hw⟩
  | cons c cs ih =>
    intro h0 h hr hw e
    simp only [runCalls, List.foldlM_cons] at e
    cases e1 : applyCall cm N h0 c with
    | none => simp [e1] at e
    | some h1 =>
      rw [e1] at e
      obtain ⟨hr1, hw1⟩ := applyCall_cursors cm hN c hr hw e1
      exact ih h1 h hr1 hw1 e

theorem runCalls_defined {F : Type} [Field F] (cm : CMath F) {N : Nat} (hN : 0 < N) :
    ∀ (calls : List Call) (h0 : MidiHandler), h0.m_CurrentReadIndex < N →
      h0.m_CurrentWriteIndex < N → h0.m_WorkingMessageLength ≤ 2 →
      Call.processByte 0xFF ∉ calls → (runCalls cm N h0 calls).isSome = true := by
  intro calls
  induction calls with
  | nil =>
    intro h0 _ _ _ _
    rfl
  | cons c cs ih =>
    intro h0 hr hw hl hn
    simp only [List.mem_cons, not_or] at hn
    obtain ⟨h1, e1, hl1⟩ := applyCall_defined cm h0 c hr hw hl (fun hc => hn.1 hc.symm)
    obtain ⟨hr1, hw1⟩ := applyCall_cursors cm hN c hr hw e1
    simp only [runCalls, List.foldlM_cons, e1]
    exact ih h1 hr1 hw1 hl1 hn.2

/-- For buffer capacity `N ≥ 1`, every interleaving of `processByte`,
`nextMidiMessage` and `dispatchEvents` calls on a freshly constructed handler that
has a defined result leaves the read cursor, the write cursor and the slot index
`(writeCursor - 1 + N) mod N` below `N`, and the result is defined whenever no
Reset byte is fed. -/
theorem runCalls_cursor_bounds {F : Type} [Field F] (cm : CMath F) (N : Nat)
    (slots : Nat → MidiEvent) (calls : List Call) (hN : 1 ≤ N) :
    (∀ h, runCalls cm N (new slots) calls = some h → CursorsInBounds N h) ∧
      (Call.processByte 0xFF ∉ calls → (runCalls cm N (new slots) calls).isSome = true) := by
  constructor
  · intro h e
    obtain ⟨hr, hw⟩ := runCalls_cursors cm hN calls (new slots) h hN hN e
    exact ⟨hr, hw, Nat.mod_lt _ hN⟩
  · intro hn
    exact runCalls_defined cm hN calls (new slots) hN hN (Nat.zero_le 2) hn

/-- At capacity 2, a Note-On message, a read, a second message under running status
and a dispatch have a defined result, with both cursors below 2. -/
theorem runCalls_cursor_bounds_at_capacity_two :
    ∃ h, runCalls realMath 2 (new fun _ => ⟨0, 0, 0⟩)
        [Call.processByte 0x90, Call.processByte 60, Call.processByte 100,
          Call.nextMidiMessage, Call.processByte 64, Call.processByte 90,
          Call.dispatchEvents] = some h ∧ CursorsInBounds 2 h := by
  have T := runCalls_cursor_bounds realMath 2 (fun _ => ⟨0, 0, 0⟩)
    [Call.processByte 0x90, Call.processByte 60, Call.processByte 100, Call.nextMidiMessage,
      Call.processByte 64, Call.processByte 90, Call.dispatchEvents] (by decide)
  obtain ⟨h, e⟩ := Option.isSome_iff_exists.1 (T.2 (by decide))
  exact ⟨h, e, T.1 h e⟩

end MidiHandler

/-! ## The phase of the oscillator -/

namespace PolyBLEPOsc

theorem waveform_fields (o : PolyBLEPOsc ℝ) :
    (waveform realMath o).2.m_Phase = o.m_Phase ∧
      (waveform realMath o).2.m_PhaseIncr = o.m_PhaseIncr ∧
      (waveform realMath o).2.m_OscMode = o.m_OscMode := by
  unfold waveform
  split_ifs <;> exact ⟨rfl, rfl, rfl⟩

theorem advancePhase_phase (o : PolyBLEPOsc ℝ) :
    (advancePhase realMath o).m_Phase =
      if o.m_Phase + o.m_PhaseIncr > 2 * Real.pi then o.m_Phase + o.m_PhaseIncr - 2 * Real.pi
      else if o.m_Phase + o.m_PhaseIncr < -2 * Real.pi then
        o.m_Phase + o.m_PhaseIncr + 2 * Real.pi
      else o.m_Phase + o.m_PhaseIncr := by
  unfold advancePhase
  simp only [realMath]
  split_ifs <;> rfl

theorem nextSample_phase (o : PolyBLEPOsc ℝ) :
    (nextSample realMath o).2.m_Phase =
      if o.m_Phase + o.m_PhaseIncr > 2 * Real.pi then o.m_Phase + o.m_PhaseIncr - 2 * Real.pi
      else if o.m_Phase + o.m_PhaseIncr < -2 * Real.pi then
        o.m_Phase + o.m_PhaseIncr + 2 * Real.pi
      else o.m_Phase + o.m_PhaseIncr := by
  obtain ⟨e1, e2, _⟩ := waveform_fields o
  simp only [nextSample, advancePhase_phase, e1, e2]

theorem nextSample_fields (o : PolyBLEPOsc ℝ) :
    (nextSample realMath o).2.m_PhaseIncr = o.m_PhaseIncr ∧
      (nextSample realMath o).2.m_OscMode = o.m_OscMode := by
  obtain ⟨_, e2, e3⟩ := waveform_fields o
  obtain ⟨a1, a2, _⟩ := advancePhase_fields (waveform realMath o).2
  exact ⟨by simp only [nextSample]; exact a2.trans e2, by simp only [nextSample]; exact a1.trans e3⟩

theorem applyCall_phase_in_period (SR : ℝ) (o : PolyBLEPOsc ℝ) (c : Call ℝ)
    (hc : ∀ f, c = Call.setFrequency f → |(f * 2 * Real.pi) / SR| ≤ 2 * Real.pi)
    (hi : |o.m_PhaseIncr| ≤ 2 * Real.pi) (h1 : -(2 * Real.pi) ≤ o.m_Phase)
    (h2 : o.m_Phase ≤ 2 * Real.pi) :
    |(applyCall realMath SR o c).m_PhaseIncr| ≤ 2 * Real.pi ∧
      -(2 * Real.pi) ≤ (applyCall realMath SR o c).m_Phase ∧
      (applyCall realMath SR o c).m_Phase ≤ 2 * Real.pi := by
  cases c with
  | setFrequency f => exact ⟨hc f rfl, h1, h2⟩
  | setOscillatorMode m => exact ⟨hi, h1, h2⟩
  | nextSample =>
    obtain ⟨e2, _⟩ := nextSample_fields o
    obtain ⟨i1, i2⟩ := abs_le.1 hi
    simp only [applyCall, e2, nextSample_phase]
    refine ⟨hi, ?_, ?_⟩ <;> split_ifs <;> linarith

theorem runCalls_phase_in_period (SR : ℝ) :
    ∀ (calls : List (Call ℝ)) (o : PolyBLEPOsc ℝ),
      (∀ f, Call.setFrequency f ∈ calls → |(f * 2 * Real.pi) / SR| ≤ 2 * Real.pi) →
      |o.m_PhaseIncr| ≤ 2 * Real.pi → -(2 * Real.pi) ≤ o.m_Phase → o.m_Phase ≤ 2 * Real.pi →
      |(runCalls realMath SR o calls).m_PhaseIncr| ≤ 2 * Real.pi ∧
        -(2 * Real.pi) ≤ (runCalls realMath SR o calls).m_Phase ∧
        (runCalls realMath SR o calls).m_Phase ≤ 2 * Real.pi := by
  intro calls
  induction calls with
  | nil =>
    intro o _ hi h1 h2
    exact ⟨hi, h1, h2⟩
  | cons c cs ih =>
    intro o hf hi h1 h2
    obtain ⟨a, b, d⟩ := applyCall_phase_in_period SR o c
      (fun f e => hf f (by rw [e]; exact List.mem_cons_self _ _)) hi h1 h2
    exact ih _ (fun f hm => hf f (List.mem_cons_of_mem _ hm)) a b d

/-- C12, as stated, fails: with `frequency = -SAMPLE_RATE` the phase after the first
`nextSample` call is exactly `-2*pi`, outside `(-2*pi, 2*pi]`, and with
`frequency = 3*SAMPLE_RATE` it is `4*pi`. -/
theorem C12_phase_leaves_half_open_interval :
    (runCalls realMath 1 new [Call.setFrequency (-1), Call.nextSample]).m_Phase =
        -(2 * Real.pi) ∧
      (runCalls realMath 1 new [Call.setFrequency 3, Call.nextSample]).m_Phase =
        4 * Real.pi ∧
      2 * Real.pi < 4 * Real.pi := by
  have hpi := Real.pi_pos
  refine ⟨?_, ?_, by linarith⟩
  · simp only [runCalls, List.foldl_cons, List.foldl_nil, applyCall, nextSample_phase]
    simp only [setFrequency, new, realMath]
    rw [if_neg (by linarith), if_neg (by linarith)]
    ring
  · simp only [runCalls, List.foldl_cons, List.foldl_nil, applyCall, nextSample_phase]
    simp only [setFrequency, new, realMath]
    rw [if_pos (by linarith)]
    ring

/-- C12 (amended): for every sequence of `setFrequency`, `setOscillatorMode` and
`nextSample` calls on a freshly constructed oscillator in which every frequency
gives a phase increment of at most `2*pi` in absolute value (`|f| ≤ sampleRate`),
the phase after each call lies in the closed interval `[-2*pi, 2*pi]`. -/
theorem C12_phase_in_closed_interval (SR : ℝ) (calls : List (Call ℝ))
    (hf : ∀ f, Call.setFrequency f ∈ calls → |(f * 2 * Real.pi) / SR| ≤ 2 * Real.pi) :
    -(2 * Real.pi) ≤ (runCalls realMath SR new calls).m_Phase ∧
      (runCalls realMath SR new calls).m_Phase ≤ 2 * Real.pi := by
  have hpi := Real.pi_pos
  exact (runCalls_phase_in_period SR calls new hf (by simp [new]; linarith)
    (by simp [new]; linarith) (by simp [new]; linarith)).2

/-- C12 (amended), with `frequency = SAMPLE_RATE / 4` and one `nextSample` call. -/
theorem C12_phase_in_closed_interval_witness :
    -(2 * Real.pi) ≤
        (runCalls realMath 1 new [Call.setFrequency (1 / 4), Call.nextSample]).m_Phase ∧
      (runCalls realMath 1 new [Call.setFrequency (1 / 4), Call.nextSample]).m_Phase ≤
        2 * Real.pi :=
  C12_phase_in_closed_interval 1 [Call.setFrequency (1 / 4), Call.nextSample] (by
    intro f hf
    have hpi := Real.pi_pos
    simp only [List.mem_cons, Call.setFrequency.injEq, reduceCtorEq, List.not_mem_nil,
      or_false] at hf
    subst hf
    rw [abs_of_nonneg (by positivity)]
    linarith)

end PolyBLEPOsc

/-! ## Bounds of the band-limited waveforms -/

theorem saw_bounds {x d : ℝ} (hd1 : d ≤ 1 / 2) (hx0 : 0 ≤ x) (hx1 : x ≤ 1) :
    -1 ≤ 2 * x - 1 - polyBLEP x d ∧ 2 * x - 1 - polyBLEP x d ≤ 1 := by
  by_cases h1 : x < d
  · have hd : 0 < d := lt_of_le_of_lt hx0 h1
    have hu0 : 0 ≤ x / d := div_nonneg hx0 hd.le
    have hu1 : x / d < 1 := (div_lt_one hd).2 h1
    have hx : x = x / d * d := by field_simp
    rw [polyBLEP_of_lt h1]
    generalize x / d = u at hu0 hu1 hx
    subst hx
    constructor <;> nlinarith [sq_nonneg (u - (1 - d))]
  · by_cases h2 : x > 1 - d
    · have hd : 0 < d := by linarith
      have hu0 : -1 < (x - 1) / d := by
        rw [lt_div_iff₀ hd]; linarith
      have hu1 : (x - 1) / d ≤ 0 := div_nonpos_of_nonpos_of_nonneg (by linarith) hd.le
      have hx : x = 1 + (x - 1) / d * d := by field_simp
      rw [polyBLEP_of_gt h1 h2]
      generalize (x - 1) / d = u at hu0 hu1 hx
      constructor <;> nlinarith [sq_nonneg (u + (1 - d))]
    · rw [polyBLEP_of_mid h1 h2]
      constructor <;> linarith

theorem square_bounds {x d : ℝ} (hd1 : d ≤ 1 / 2) (hx0 : 0 ≤ x) (hx1 : x ≤ 1) :
    -1 ≤ (if x < 1 / 2 then 1 else -1) + polyBLEP x d - polyBLEP (fmod (x + 1 / 2) 1) d ∧
      (if x < 1 / 2 then 1 else -1) + polyBLEP x d - polyBLEP (fmod (x + 1 / 2) 1) d ≤ 1 := by
  by_cases hx : x < 1 / 2
  · rw [if_pos hx, fmod_one_of_lt (by linarith) (by linarith)]
    have hA : -1 ≤ polyBLEP x d ∧ polyBLEP x d ≤ 0 := by
      by_cases h1 : x < d
      · obtain ⟨a, b, _⟩ := polyBLEP_lower_window hx0 h1
        exact ⟨a, b.le⟩
      · have h2 : ¬ x > 1 - d := by
          intro hc; linarith
        rw [polyBLEP_of_mid h1 h2]
        constructor <;> norm_num
    have h3 : ¬ x + 1 / 2 < d := by
      intro hc; linarith
    have hB : 0 ≤ polyBLEP (x + 1 / 2) d ∧ polyBLEP (x + 1 / 2) d ≤ 1 := by
      by_cases h : x + 1 / 2 > 1 - d
      · obtain ⟨a, b, _⟩ := polyBLEP_upper_window (by linarith) h3 h (by linarith)
        exact ⟨a.le, b⟩
      · rw [polyBLEP_of_mid h3 h]
        constructor <;> norm_num
    constructor <;> linarith
  · rw [if_neg hx, fmod_one_of_ge (by linarith) (by linarith)]
    have h1 : ¬ x < d := by
      intro hc; linarith
    have hA : 0 ≤ polyBLEP x d ∧ polyBLEP x d ≤ 1 := by
      by_cases h : x > 1 - d
      · obtain ⟨a, b, _⟩ := polyBLEP_upper_window (by linarith) h1 h hx1
        exact ⟨a.le, b⟩
      · rw [polyBLEP_of_mid h1 h]
        constructor <;> norm_num
    have hB : -1 ≤ polyBLEP (x + 1 / 2 - 1) d ∧ polyBLEP (x + 1 / 2 - 1) d ≤ 0 := by
      by_cases h : x + 1 / 2 - 1 < d
      · obtain ⟨a, b, _⟩ := polyBLEP_lower_window (by linarith) h
        exact ⟨a, b.le⟩
      · have h2 : ¬ x + 1 / 2 - 1 > 1 - d := by
          intro hc; linarith
        rw [polyBLEP_of_mid h h2]
        constructor <;> norm_num
    constructor <;> linarith

namespace PolyBLEPOsc

theorem nextSample_bounds (o : PolyBLEPOsc ℝ) (hp0 : 0 ≤ o.m_Phase)
    (hp1 : o.m_Phase ≤ 2 * Real.pi) (hi0 : 0 ≤ o.m_PhaseIncr) (hi1 : o.m_PhaseIncr ≤ Real.pi)
    (hm : o.m_OscMode ≠ OscillatorMode.TRIANGLE) :
    -1 ≤ (nextSample realMath o).1 ∧ (nextSample realMath o).1 ≤ 1 := by
  have hpi : 0 < 2 * Real.pi := by positivity
  have hx0 : 0 ≤ o.m_Phase / (2 * Real.pi) := div_nonneg hp0 hpi.le
  have hx1 : o.m_Phase / (2 * Real.pi) ≤ 1 := (div_le_one hpi).2 hp1
  have hd1 : o.m_PhaseIncr / (2 * Real.pi) ≤ 1 / 2 := by
    rw [div_le_iff₀ hpi]; linarith
  simp only [nextSample]
  cases hmode : o.m_OscMode with
  | SINE =>
    rw [waveform_sine o hmode]
    exact ⟨Real.neg_one_le_sin _, Real.sin_le_one _⟩
  | SAWTOOTH =>
    rw [waveform_saw o hmode hp0 hi0]
    exact saw_bounds hd1 hx0 hx1
  | SQUARE =>
    rw [waveform_square o hmode hp0 hi0]
    have e : (o.m_Phase < Real.pi) ↔ (o.m_Phase / (2 * Real.pi) < 1 / 2) := by
      rw [div_lt_iff₀ hpi]
      constructor <;> intro h <;> linarith
    simp only [e]
    exact square_bounds hd1 hx0 hx1
  | TRIANGLE => exact absurd hmode hm

theorem applyCall_forward (SR : ℝ) (o : PolyBLEPOsc ℝ) (c : Call ℝ)
    (hc : ∀ f, c = Call.setFrequency f →
      0 ≤ (f * 2 * Real.pi) / SR ∧ (f * 2 * Real.pi) / SR ≤ Real.pi)
    (hi0 : 0 ≤ o.m_PhaseIncr) (hi1 : o.m_PhaseIncr ≤ Real.pi) (hp0 : 0 ≤ o.m_Phase)
    (hp1 : o.m_Phase ≤ 2 * Real.pi) :
    0 ≤ (applyCall realMath SR o c).m_PhaseIncr ∧
      (applyCall realMath SR o c).m_PhaseIncr ≤ Real.pi ∧
      0 ≤ (applyCall realMath SR o c).m_Phase ∧
      (applyCall realMath SR o c).m_Phase ≤ 2 * Real.pi := by
  cases c with
  | setFrequency f => exact ⟨(hc f rfl).1, (hc f rfl).2, hp0, hp1⟩
  | setOscillatorMode m => exact ⟨hi0, hi1, hp0, hp1⟩
  | nextSample =>
    obtain ⟨e2, _⟩ := nextSample_fields o
    have hpi := Real.pi_pos
    simp only [applyCall, e2, nextSample_phase]
    refine ⟨hi0, hi1, ?_, ?_⟩ <;> split_ifs <;> linarith

theorem runCalls_forward (SR : ℝ) :
    ∀ (calls : List (Call ℝ)) (o : PolyBLEPOsc ℝ),
      (∀ f, Call.setFrequency f ∈ calls →
        0 ≤ (f * 2 * Real.pi) / SR ∧ (f * 2 * Real.pi) / SR ≤ Real.pi) →
      0 ≤ o.m_PhaseIncr → o.m_PhaseIncr ≤ Real.pi → 0 ≤ o.m_Phase →
      o.m_Phase ≤ 2 * Real.pi →
      0 ≤ (runCalls realMath SR o calls).m_PhaseIncr ∧
        (runCalls realMath SR o calls).m_PhaseIncr ≤ Real.pi ∧
        0 ≤ (runCalls realMath SR o calls).m_Phase ∧
        (runCalls realMath SR o calls).m_Phase ≤ 2 * Real.pi := by
  intro calls
  induction calls with
  | nil =>
    intro o _ a b c d
    exact ⟨a, b, c, d⟩
  | cons c cs ih =>
    intro o hf hi0 hi1 hp0 hp1
    obtain ⟨a, b, c2, d⟩ := applyCall_forward SR o c
      (fun f e => hf f (by rw [e]; exact List.mem_cons_self _ _)) hi0 hi1 hp0 hp1
    exact ih _ (fun f hm => hf f (List.mem_cons_of_mem _ hm)) a b c2 d

theorem nextSample_saw (o : PolyBLEPOsc ℝ) (hm : o.m_OscMode = OscillatorMode.SAWTOOTH) :
    (nextSample realMath o).1 =
      (2 * o.m_Phase) / (2 * Real.pi) - 1 -
        polyBLEP (|o.m_Phase| / (2 * Real.pi)) (|o.m_PhaseIncr| / (2 * Real.pi)) := by
  simp [nextSample, waveform, hm, realMath]

/-- C13, as stated, fails: in Sawtooth mode the second sample is `-3/2` with
`frequency = -SAMPLE_RATE / 4`, and `28/9` with `frequency = 3 * SAMPLE_RATE`. -/
theorem C13_saw_output_leaves_range :
    nthSample realMath
        (setOscillatorMode (setFrequency realMath 4 new (-1)) OscillatorMode.SAWTOOTH) 1 =
        -3 / 2 ∧
      nthSample realMath
        (setOscillatorMode (setFrequency realMath 1 new 3) OscillatorMode.SAWTOOTH) 1 =
        28 / 9 := by
  have hpi := Real.pi_pos
  have hne : Real.pi ≠ 0 := hpi.ne'
  constructor
  · have e : (afterSamples realMath
        (setOscillatorMode (setFrequency realMath 4 new (-1)) OscillatorMode.SAWTOOTH) 1).m_Phase
        = -(Real.pi / 2) := by
      simp only [afterSamples, nextSample_phase]
      simp only [setOscillatorMode, setFrequency, new, realMath]
      rw [if_neg (by linarith), if_neg (by linarith)]
      ring
    have e2 : (afterSamples realMath
        (setOscillatorMode (setFrequency realMath 4 new (-1)) OscillatorMode.SAWTOOTH)
        1).m_PhaseIncr = -(Real.pi / 2) := by
      simp only [afterSamples, (nextSample_fields _).1]
      simp only [setOscillatorMode, setFrequency, new, realMath]
      ring
    have e3 : (afterSamples realMath
        (setOscillatorMode (setFrequency realMath 4 new (-1)) OscillatorMode.SAWTOOTH)
        1).m_OscMode = OscillatorMode.SAWTOOTH := by
      simp only [afterSamples, (nextSample_fields _).2]
      rfl
    have ht : |(-(Real.pi / 2))| / (2 * Real.pi) = 1 / 4 := by
      rw [abs_neg, abs_of_nonneg (by positivity)]
      field_simp
      ring
    simp only [nthSample]
    generalize afterSamples realMath
      (setOscillatorMode (setFrequency realMath 4 new (-1)) OscillatorMode.SAWTOOTH) 1 = o1
      at e e2 e3
    rw [nextSample_saw o1 e3, e, e2, ht]
    have hn : 2 * -(Real.pi / 2) / (2 * Real.pi) = -1 / 2 := by
      field_simp
      ring
    rw [hn]
    norm_num [polyBLEP]
  · have e : (afterSamples realMath
        (setOscillatorMode (setFrequency realMath 1 new 3) OscillatorMode.SAWTOOTH) 1).m_Phase
        = 4 * Real.pi := by
      simp only [afterSamples, nextSample_phase]
      simp only [setOscillatorMode, setFrequency, new, realMath]
      rw [if_pos (by linarith)]
      ring
    have e2 : (afterSamples realMath
        (setOscillatorMode (setFrequency realMath 1 new 3) OscillatorMode.SAWTOOTH)
        1).m_PhaseIncr = 6 * Real.pi := by
      simp only [afterSamples, (nextSample_fields _).1]
      simp only [setOscillatorMode, setFrequency, new, realMath]
      ring
    have e3 : (afterSamples realMath
        (setOscillatorMode (setFrequency realMath 1 new 3) OscillatorMode.SAWTOOTH)
        1).m_OscMode = OscillatorMode.SAWTOOTH := by
      simp only [afterSamples, (nextSample_fields _).2]
      rfl
    have ht : |4 * Real.pi| / (2 * Real.pi) = 2 := by
      rw [abs_of_nonneg (by positivity)]
      field_simp
      ring
    have hdt : |6 * Real.pi| / (2 * Real.pi) = 3 := by
      rw [abs_of_nonneg (by positivity)]
      field_simp
      ring
    simp only [nthSample]
    generalize afterSamples realMath
      (setOscillatorMode (setFrequency realMath 1 new 3) OscillatorMode.SAWTOOTH) 1 = o1
      at e e2 e3
    rw [nextSample_saw o1 e3, e, e2, ht, hdt]
    have hn : 2 * (4 * Real.pi) / (2 * Real.pi) = 4 := by
      field_simp
      ring
    rw [hn]
    norm_num [polyBLEP]

/-- C13 (amended): in Sine, Sawtooth and Square mode, for every state reachable
from construction by `setFrequency`, `setOscillatorMode` and `nextSample` calls in
which every frequency gives a phase increment between 0 and `pi` (a non-negative
frequency up to Nyquist), the value returned by `nextSample` lies in `[-1, 1]`. -/
theorem C13_output_in_range (SR : ℝ) (calls : List (Call ℝ))
    (hf : ∀ f, Call.setFrequency f ∈ calls →
      0 ≤ (f * 2 * Real.pi) / SR ∧ (f * 2 * Real.pi) / SR ≤ Real.pi)
    (hm : (runCalls realMath SR new calls).m_OscMode ≠ OscillatorMode.TRIANGLE) :
    -1 ≤ (nextSample realMath (runCalls realMath SR new calls)).1 ∧
      (nextSample realMath (runCalls realMath SR new calls)).1 ≤ 1 := by
  have hpi := Real.pi_pos
  obtain ⟨a, b, c, d⟩ := runCalls_forward SR calls new hf (by simp [new])
    (by simp [new]; linarith) (by simp [new]) (by simp [new]; linarith)
  exact nextSample_bounds _ c d a b hm

/-- C13 (amended), in Square mode with `frequency = SAMPLE_RATE / 4` after one
sample. -/
theorem C13_output_in_range_witness :
    -1 ≤ (nextSample realMath (runCalls realMath 1 new
        [Call.setFrequency (1 / 4), Call.setOscillatorMode OscillatorMode.SQUARE,
          Call.nextSample])).1 ∧
      (nextSample realMath (runCalls realMath 1 new
        [Call.setFrequency (1 / 4), Call.setOscillatorMode OscillatorMode.SQUARE,
          Call.nextSample])).1 ≤ 1 :=
  C13_output_in_range 1
    [Call.setFrequency (1 / 4), Call.setOscillatorMode OscillatorMode.SQUARE, Call.nextSample]
    (by
      intro f hf
      have hpi := Real.pi_pos
      simp only [List.mem_cons, Call.setFrequency.injEq, reduceCtorEq, List.not_mem_nil,
        or_false] at hf
      subst hf
      constructor
      · positivity
      · linarith)
    (by
      simp only [runCalls, List.foldl_cons, List.foldl_nil, applyCall, (nextSample_fields _).2]
      simp [setOscillatorMode])

theorem afterSamples_forward (o : PolyBLEPOsc ℝ) (hi0 : 0 ≤ o.m_PhaseIncr)
    (hi1 : o.m_PhaseIncr ≤ Real.pi) (hp0 : 0 ≤ o.m_Phase) (hp1 : o.m_Phase ≤ 2 * Real.pi)
    (k : Nat) :
    (afterSamples realMath o k).m_PhaseIncr = o.m_PhaseIncr ∧
      (afterSamples realMath o k).m_OscMode = o.m_OscMode ∧
      0 ≤ (afterSamples realMath o k).m_Phase ∧
      (afterSamples realMath o k).m_Phase ≤ 2 * Real.pi := by
  induction k with
  | zero => exact ⟨rfl, rfl, hp0, hp1⟩
  | succ k ih =>
    obtain ⟨a, b, c, d⟩ := ih
    obtain ⟨e1, e2⟩ := nextSample_fields (afterSamples realMath o k)
    have hpi := Real.pi_pos
    simp only [afterSamples, e1, e2, nextSample_phase]
    refine ⟨a, b, ?_, ?_⟩ <;> rw [a] <;> split_ifs <;> linarith

/-- C17: for every positive frequency with normalised increment `0 < dt ≤ 1/4` and
every phase reached from a freshly constructed oscillator (phase 0) by `nextSample`
calls at that frequency, the phase stays in `[0, 2*pi]` and the next output, in
Sawtooth mode and in Square mode, lies in `[-1, 1]`. -/
theorem C17_band_limited_output_bound (SR f : ℝ) (mode : OscillatorMode) (k : Nat)
    (hmode : mode = OscillatorMode.SAWTOOTH ∨ mode = OscillatorMode.SQUARE)
    (hd0 : 0 < ((f * 2 * Real.pi) / SR) / (2 * Real.pi))
    (hd1 : ((f * 2 * Real.pi) / SR) / (2 * Real.pi) ≤ 1 / 4) :
    0 ≤ (afterSamples realMath (setOscillatorMode (setFrequency realMath SR new f) mode)
        k).m_Phase ∧
      (afterSamples realMath (setOscillatorMode (setFrequency realMath SR new f) mode)
        k).m_Phase ≤ 2 * Real.pi ∧
      -1 ≤ (nextSample realMath (afterSamples realMath
        (setOscillatorMode (setFrequency realMath SR new f) mode) k)).1 ∧
      (nextSample realMath (afterSamples realMath
        (setOscillatorMode (setFrequency realMath SR new f) mode) k)).1 ≤ 1 := by
  have hpi : 0 < 2 * Real.pi := by positivity
  have hi0 : 0 ≤ (f * 2 * Real.pi) / SR := by
    rcases div_pos_iff.1 hd0 with h | h
    · exact h.1.le
    · linarith [h.2]
  have hi1 : (f * 2 * Real.pi) / SR ≤ Real.pi := by
    rw [div_le_iff₀ hpi] at hd1; linarith
  obtain ⟨a, b, c, d⟩ := afterSamples_forward
    (setOscillatorMode (setFrequency realMath SR new f) mode) hi0 hi1 (le_refl _)
    (by show (0 : ℝ) ≤ 2 * Real.pi; exact hpi.le) k
  have hm : (afterSamples realMath (setOscillatorMode (setFrequency realMath SR new f) mode)
      k).m_OscMode ≠ OscillatorMode.TRIANGLE := by
    rw [b]
    show mode ≠ OscillatorMode.TRIANGLE
    rcases hmode with h | h <;> rw [h] <;> decide
  have hb := nextSample_bounds _ c d (by rw [a]; exact hi0) (by rw [a]; exact hi1) hm
  exact ⟨c, d, hb.1, hb.2⟩

/-- C17, in Sawtooth mode with `frequency = SAMPLE_RATE / 8` after three samples. -/
theorem C17_band_limited_output_bound_witness :
    0 ≤ (afterSamples realMath
        (setOscillatorMode (setFrequency realMath 1 new (1 / 8)) OscillatorMode.SAWTOOTH)
        3).m_Phase ∧
      (afterSamples realMath
        (setOscillatorMode (setFrequency realMath 1 new (1 / 8)) OscillatorMode.SAWTOOTH)
        3).m_Phase ≤ 2 * Real.pi ∧
      -1 ≤ (nextSample realMath (afterSamples realMath
        (setOscillatorMode (setFrequency realMath 1 new (1 / 8)) OscillatorMode.SAWTOOTH)
        3)).1 ∧
      (nextSample realMath (afterSamples realMath
        (setOscillatorMode (setFrequency realMath 1 new (1 / 8)) OscillatorMode.SAWTOOTH)
        3)).1 ≤ 1 :=
  C17_band_limited_output_bound 1 (1 / 8) OscillatorMode.SAWTOOTH 3 (Or.inl rfl)
    (by positivity)
    (by
      have hpi := Real.pi_pos
      rw [div_le_iff₀ (by positivity), div_one]
      linarith)

/-! ## The Triangle filter -/

theorem advancePhase_registers (o : PolyBLEPOsc ℝ) :
    (advancePhase realMath o).m_LastOutput = o.m_LastOutput ∧
      (advancePhase realMath o).m_LastLastOutput = o.m_LastLastOutput ∧
      (advancePhase realMath o).m_A0 = o.m_A0 ∧ (advancePhase realMath o).m_B1 = o.m_B1 := by
  unfold advancePhase
  simp only []
  split_ifs <;> exact ⟨rfl, rfl, rfl, rfl⟩

theorem waveform_triangle (o : PolyBLEPOsc ℝ) (hm : o.m_OscMode = OscillatorMode.TRIANGLE) :
    waveform realMath o =
      (o.m_LastOutput * o.m_A0 +
          (squareOut realMath o * o.m_A0 + o.m_LastOutput * o.m_B1) * o.m_B1,
        { o with
          m_LastLastOutput := squareOut realMath o * o.m_A0 + o.m_LastOutput * o.m_B1
          m_LastOutput := o.m_LastOutput * o.m_A0 +
            (squareOut realMath o * o.m_A0 + o.m_LastOutput * o.m_B1) * o.m_B1 }) := by
  simp [waveform, hm, squareOut]

theorem nextSample_triangle (o : PolyBLEPOsc ℝ) (hm : o.m_OscMode = OscillatorMode.TRIANGLE) :
    (nextSample realMath o).1 =
        o.m_LastOutput * o.m_A0 +
          (squareOut realMath o * o.m_A0 + o.m_LastOutput * o.m_B1) * o.m_B1 ∧
      (nextSample realMath o).2.m_LastLastOutput =
        squareOut realMath o * o.m_A0 + o.m_LastOutput * o.m_B1 ∧
      (nextSample realMath o).2.m_LastOutput =
        o.m_LastOutput * o.m_A0 +
          (squareOut realMath o * o.m_A0 + o.m_LastOutput * o.m_B1) * o.m_B1 := by
  obtain ⟨a, b, _, _⟩ := advancePhase_registers (waveform realMath o).2
  simp only [nextSample, a, b]
  rw [waveform_triangle o hm]
  exact ⟨rfl, rfl, rfl⟩

theorem nextSample_square (o : PolyBLEPOsc ℝ) (hm : o.m_OscMode = OscillatorMode.SQUARE) :
    (nextSample realMath o).1 = squareOut realMath o := by
  simp [nextSample, waveform, hm, squareOut]

/-- C14 (amended): in Triangle mode, with band-limited square value `squareOut`
(the value `nextSample` returns in Square mode from the same phase), each
`nextSample` call sets `m_LastLastOutput := A0*squareOut + B1*m_LastOutput` from the
previous `m_LastOutput`, then `m_LastOutput := A0*m_LastOutput + B1*m_LastLastOutput`
from the previous `m_LastOutput` and the `m_LastLastOutput` just computed, and
returns the new `m_LastOutput`. -/
theorem C14_triangle_registers (o : PolyBLEPOsc ℝ)
    (hm : o.m_OscMode = OscillatorMode.TRIANGLE) :
    (nextSample realMath (setOscillatorMode o OscillatorMode.SQUARE)).1 = squareOut realMath o ∧
      (nextSample realMath o).2.m_LastLastOutput =
        o.m_A0 * squareOut realMath o + o.m_B1 * o.m_LastOutput ∧
      (nextSample realMath o).2.m_LastOutput =
        o.m_A0 * o.m_LastOutput + o.m_B1 * (nextSample realMath o).2.m_LastLastOutput ∧
      (nextSample realMath o).1 = (nextSample realMath o).2.m_LastOutput := by
  obtain ⟨a, b, c⟩ := nextSample_triangle o hm
  refine ⟨nextSample_square _ rfl, ?_, ?_, ?_⟩
  · rw [b]; ring
  · rw [c, b]; ring
  · rw [a, c]

theorem nextSample_coefficients (o : PolyBLEPOsc ℝ) :
    (nextSample realMath o).2.m_A0 = o.m_A0 ∧ (nextSample realMath o).2.m_B1 = o.m_B1 := by
  obtain ⟨_, _, c, d⟩ := advancePhase_registers (waveform realMath o).2
  simp only [nextSample, c, d]
  unfold waveform
  split_ifs <;> exact ⟨rfl, rfl⟩

theorem squareOut_at_rest (o : PolyBLEPOsc ℝ) (hp : o.m_Phase = 0) (hi : o.m_PhaseIncr = 0) :
    squareOut realMath o = 1 := by
  have hpi := Real.pi_pos
  have hf : fmod ((0 : ℝ) + 1 / 2) 1 = 1 / 2 := by
    rw [fmod_one_of_lt (by norm_num) (by norm_num)]
    norm_num
  simp only [squareOut, hp, hi, realMath, abs_zero, zero_div, hf, if_pos hpi]
  norm_num [polyBLEP]

theorem nextSample_at_rest (o : PolyBLEPOsc ℝ) (hp : o.m_Phase = 0) (hi : o.m_PhaseIncr = 0) :
    (nextSample realMath o).2.m_Phase = 0 ∧ (nextSample realMath o).2.m_PhaseIncr = 0 := by
  have hpi := Real.pi_pos
  refine ⟨?_, (nextSample_fields o).1.trans hi⟩
  rw [nextSample_phase, hp, hi, if_neg (by linarith), if_neg (by linarith)]
  norm_num

/-- C14, as stated, fails: on a freshly constructed oscillator switched to Triangle
mode (`A0 = 1`, `B1 = 0`, phase increment 0, `squareOut = 1`), after the first
`nextSample` call the registers are `m_LastLastOutput = 1` and `m_LastOutput = 0`.
The second call returns 0 and leaves `m_LastOutput = 0`, while
`A0*previousStageA + B1*previousStageB` is 1 when `stageA` is `m_LastLastOutput`;
when `stageB` is `m_LastLastOutput` instead, its new value 1 is not the value
returned. -/
theorem C14_second_stage_does_not_use_previous_first_stage :
    (afterSamples realMath (setOscillatorMode new OscillatorMode.TRIANGLE) 1).m_A0 = 1 ∧
      (afterSamples realMath (setOscillatorMode new OscillatorMode.TRIANGLE) 1).m_B1 = 0 ∧
      (afterSamples realMath (setOscillatorMode new OscillatorMode.TRIANGLE)
        1).m_LastLastOutput = 1 ∧
      (afterSamples realMath (setOscillatorMode new OscillatorMode.TRIANGLE)
        1).m_LastOutput = 0 ∧
      nthSample realMath (setOscillatorMode new OscillatorMode.TRIANGLE) 1 = 0 ∧
      (afterSamples realMath (setOscillatorMode new OscillatorMode.TRIANGLE)
        2).m_LastOutput = 0 ∧
      (afterSamples realMath (setOscillatorMode new OscillatorMode.TRIANGLE)
        2).m_LastLastOutput = 1 ∧
      (afterSamples realMath (setOscillatorMode new OscillatorMode.TRIANGLE) 2).m_LastOutput ≠
        (afterSamples realMath (setOscillatorMode new OscillatorMode.TRIANGLE) 1).m_A0 *
            (afterSamples realMath (setOscillatorMode new OscillatorMode.TRIANGLE)
              1).m_LastLastOutput +
          (afterSamples realMath (setOscillatorMode new OscillatorMode.TRIANGLE) 1).m_B1 *
            (afterSamples realMath (setOscillatorMode new OscillatorMode.TRIANGLE)
              1).m_LastOutput := by
  have hm0 : (setOscillatorMode (new : PolyBLEPOsc ℝ) OscillatorMode.TRIANGLE).m_OscMode =
      OscillatorMode.TRIANGLE := rfl
  have hs0 := squareOut_at_rest (setOscillatorMode new OscillatorMode.TRIANGLE) rfl rfl
  obtain ⟨_, b0, c0⟩ := nextSample_triangle _ hm0
  obtain ⟨d0, e0⟩ := nextSample_coefficients
    (setOscillatorMode (new : PolyBLEPOsc ℝ) OscillatorMode.TRIANGLE)
  obtain ⟨p0, i0⟩ := nextSample_at_rest (setOscillatorMode new OscillatorMode.TRIANGLE) rfl rfl
  have hm1 := (nextSample_fields
    (setOscillatorMode (new : PolyBLEPOsc ℝ) OscillatorMode.TRIANGLE)).2.trans hm0
  rw [hs0] at b0 c0
  have hA : (setOscillatorMode (new : PolyBLEPOsc ℝ) OscillatorMode.TRIANGLE).m_A0 = 1 := rfl
  have hB : (setOscillatorMode (new : PolyBLEPOsc ℝ) OscillatorMode.TRIANGLE).m_B1 = 0 := rfl
  have hL : (setOscillatorMode (new : PolyBLEPOsc ℝ) OscillatorMode.TRIANGLE).m_LastOutput
      = 0 := rfl
  simp only [hA, hB, hL] at b0 c0 d0 e0
  norm_num at b0 c0
  simp only [afterSamples, nthSample]
  generalize (nextSample realMath
    (setOscillatorMode (new : PolyBLEPOsc ℝ) OscillatorMode.TRIANGLE)).2 = o1
    at b0 c0 d0 e0 p0 i0 hm1
  have hs1 := squareOut_at_rest o1 p0 i0
  obtain ⟨a1, b1, c1⟩ := nextSample_triangle o1 hm1
  simp only [hs1, c0, d0, e0] at a1 b1 c1
  norm_num at a1 b1 c1
  refine ⟨d0, e0, b0, c0, a1, c1, b1, ?_⟩
  rw [c1, d0, e0, b0, c0]
  norm_num

/-- C14 (amended), on a freshly constructed oscillator switched to Triangle mode. -/
theorem C14_triangle_registers_witness :
    (nextSample realMath (setOscillatorMode new OscillatorMode.TRIANGLE)).1 =
      (nextSample realMath (setOscillatorMode new OscillatorMode.TRIANGLE)).2.m_LastOutput :=
  (C14_triangle_registers (setOscillatorMode new OscillatorMode.TRIANGLE) rfl).2.2.2

theorem advancePhase_lastLast (q : PolyBLEPOsc ℝ) (M : ℝ) :
    advancePhase realMath { q with m_LastLastOutput := M } =
      { advancePhase realMath q with m_LastLastOutput := M } := by
  unfold advancePhase
  simp only []
  split_ifs <;> rfl

theorem waveform_lastLast (o : PolyBLEPOsc ℝ) (M : ℝ) :
    (waveform realMath { o with m_LastLastOutput := M }).1 = (waveform realMath o).1 ∧
      ∃ M2, (waveform realMath { o with m_LastLastOutput := M }).2 =
        { (waveform realMath o).2 with m_LastLastOutput := M2 } := by
  obtain ⟨p, i, L, M0, A, B, mode⟩ := o
  cases mode
  · exact ⟨by simp [waveform], M, by simp [waveform]⟩
  · exact ⟨by simp [waveform], M, by simp [waveform]⟩
  · exact ⟨by simp [waveform], M, by simp [waveform]⟩
  · exact ⟨by simp [waveform],
      (waveform realMath ⟨p, i, L, M0, A, B, OscillatorMode.TRIANGLE⟩).2.m_LastLastOutput,
      by simp [waveform]⟩

theorem nextSample_lastLast (o : PolyBLEPOsc ℝ) (M : ℝ) :
    (nextSample realMath { o with m_LastLastOutput := M }).1 = (nextSample realMath o).1 ∧
      ∃ M2, (nextSample realMath { o with m_LastLastOutput := M }).2 =
        { (nextSample realMath o).2 with m_LastLastOutput := M2 } := by
  obtain ⟨a, M2, b⟩ := waveform_lastLast o M
  refine ⟨a, M2, ?_⟩
  simp only [nextSample, b]
  exact advancePhase_lastLast _ _

theorem runOutputs_lastLast (SR : ℝ) :
    ∀ (calls : List (Call ℝ)) (o : PolyBLEPOsc ℝ) (M : ℝ),
      runOutputs realMath SR { o with m_LastLastOutput := M } calls =
        runOutputs realMath SR o calls := by
  intro calls
  induction calls with
  | nil =>
    intro o M
    rfl
  | cons c cs ih =>
    intro o M
    cases c with
    | setFrequency f => exact ih (setFrequency realMath SR o f) M
    | setOscillatorMode m => exact ih (setOscillatorMode o m) M
    | nextSample =>
      obtain ⟨a, M2, b⟩ := nextSample_lastLast o M
      simp only [runOutputs, a, b]
      rw [ih]

/-- C20: in Triangle mode, for every state, with band-limited square value `x`,
`nextSample` returns `(A0 + B1^2)*L + A0*B1*x`, where `L` is the previous value of
`m_LastOutput`; the value `m_LastLastOutput` held before the call influences
neither this nor any later output of any sequence of calls, and the two coefficients
sum to 1 whenever `A0 = 1 - B1`. -/
theorem C20_triangle_single_register (o : PolyBLEPOsc ℝ)
    (hm : o.m_OscMode = OscillatorMode.TRIANGLE) :
    (nextSample realMath o).1 =
        (o.m_A0 + o.m_B1 ^ 2) * o.m_LastOutput + o.m_A0 * o.m_B1 * squareOut realMath o ∧
      (∀ (SR M : ℝ) (calls : List (Call ℝ)),
        runOutputs realMath SR { o with m_LastLastOutput := M } calls =
          runOutputs realMath SR o calls) ∧
      (o.m_A0 = 1 - o.m_B1 → (o.m_A0 + o.m_B1 ^ 2) + o.m_A0 * o.m_B1 = 1) := by
  refine ⟨?_, fun SR M calls => runOutputs_lastLast SR calls o M, ?_⟩
  · rw [(nextSample_triangle o hm).1]
    ring
  · intro h
    rw [h]
    ring

/-- C20, on a Triangle-mode oscillator with `A0 = B1 = 1/2`, `m_LastOutput = 1` and
`m_LastLastOutput = 7`. -/
theorem C20_triangle_single_register_witness :
    (nextSample realMath
        (⟨0, 0, 1, 7, 1 / 2, 1 / 2, OscillatorMode.TRIANGLE⟩ : PolyBLEPOsc ℝ)).1 =
      ((1 / 2 : ℝ) + (1 / 2) ^ 2) * 1 + (1 / 2) * (1 / 2) *
        squareOut realMath (⟨0, 0, 1, 7, 1 / 2, 1 / 2, OscillatorMode.TRIANGLE⟩ : PolyBLEPOsc ℝ) :=
  (C20_triangle_single_register ⟨0, 0, 1, 7, 1 / 2, 1 / 2, OscillatorMode.TRIANGLE⟩ rfl).1

/-! ## A zero phase increment -/

theorem fmod_one_range {y : ℝ} (h0 : 0 ≤ y) : 0 ≤ fmod y 1 ∧ fmod y 1 < 1 := by
  have e : fmod y 1 = y - (⌊y⌋ : ℝ) := by
    simp [fmod, h0]
  rw [e]
  constructor
  · linarith [Int.floor_le y]
  · linarith [Int.lt_floor_add_one y]

/-- C15, as stated, fails: after `setFrequency(3*SAMPLE_RATE)`, one `nextSample`
call in Sawtooth mode and `setFrequency(0)`, the phase increment is 0 and the phase
is `4*pi`, so `t = 2 > 1 - dt = 1` and the next `nextSample` call takes the second
branch, which divides by `dt = 0`. -/
theorem C15_zero_increment_divides_after_large_frequency :
    (runCalls realMath 1 new
        [Call.setFrequency 3, Call.setOscillatorMode OscillatorMode.SAWTOOTH, Call.nextSample,
          Call.setFrequency 0]).m_PhaseIncr = 0 ∧
      (runCalls realMath 1 new
        [Call.setFrequency 3, Call.setOscillatorMode OscillatorMode.SAWTOOTH, Call.nextSample,
          Call.setFrequency 0]).m_Phase = 4 * Real.pi ∧
      dividesByDt realMath (runCalls realMath 1 new
        [Call.setFrequency 3, Call.setOscillatorMode OscillatorMode.SAWTOOTH, Call.nextSample,
          Call.setFrequency 0]) := by
  have hpi := Real.pi_pos
  have e1 : (runCalls realMath 1 new
      [Call.setFrequency 3, Call.setOscillatorMode OscillatorMode.SAWTOOTH, Call.nextSample,
        Call.setFrequency 0]).m_PhaseIncr = 0 := by
    simp [runCalls, applyCall, setFrequency]
  have e2 : (runCalls realMath 1 new
      [Call.setFrequency 3, Call.setOscillatorMode OscillatorMode.SAWTOOTH, Call.nextSample,
        Call.setFrequency 0]).m_Phase = 4 * Real.pi := by
    simp only [runCalls, List.foldl_cons, List.foldl_nil, applyCall]
    show (nextSample realMath _).2.m_Phase = _
    rw [nextSample_phase]
    simp only [setOscillatorMode, setFrequency, new, realMath]
    rw [if_pos (by linarith)]
    ring
  have e3 : (runCalls realMath 1 new
      [Call.setFrequency 3, Call.setOscillatorMode OscillatorMode.SAWTOOTH, Call.nextSample,
        Call.setFrequency 0]).m_OscMode = OscillatorMode.SAWTOOTH := by
    simp only [runCalls, List.foldl_cons, List.foldl_nil, applyCall]
    show (nextSample realMath _).2.m_OscMode = _
    rw [(nextSample_fields _).2]
    rfl
  refine ⟨e1, e2, ?_⟩
  have ht : |4 * Real.pi| / (2 * Real.pi) = 2 := by
    rw [abs_of_nonneg (by positivity)]
    field_simp
    ring
  refine ⟨by rw [e3]; decide, Or.inl ?_⟩
  rw [e1, e2]
  simp only [realMath, ht, abs_zero, zero_div, polyBLEPDivides]
  right
  norm_num

/-- C15 (amended): for every state reachable from construction by `setFrequency`,
`setOscillatorMode` and `nextSample` calls in which every frequency gives a phase
increment of at most `2*pi` in absolute value, and in which the phase increment is
now 0, a `nextSample` call in Sawtooth, Square or Triangle mode takes neither
branch that divides by `dt`, both PolyBLEP correction terms are 0, and the output is
the uncorrected waveform: the ramp `2*phase/(2*pi) - 1` in Sawtooth mode, and `+1`
or `-1` for the square value. -/
theorem C15_zero_increment_guarded (SR : ℝ) (calls : List (Call ℝ))
    (hf : ∀ f, Call.setFrequency f ∈ calls → |(f * 2 * Real.pi) / SR| ≤ 2 * Real.pi)
    (hz : (runCalls realMath SR new calls).m_PhaseIncr = 0) :
    ¬ dividesByDt realMath (runCalls realMath SR new calls) ∧
      polyBLEP (|(runCalls realMath SR new calls).m_Phase| / (2 * Real.pi))
        (|(runCalls realMath SR new calls).m_PhaseIncr| / (2 * Real.pi)) = 0 ∧
      polyBLEP (fmod (|(runCalls realMath SR new calls).m_Phase| / (2 * Real.pi) + 1 / 2) 1)
        (|(runCalls realMath SR new calls).m_PhaseIncr| / (2 * Real.pi)) = 0 ∧
      ((runCalls realMath SR new calls).m_OscMode = OscillatorMode.SAWTOOTH →
        (nextSample realMath (runCalls realMath SR new calls)).1 =
          (2 * (runCalls realMath SR new calls).m_Phase) / (2 * Real.pi) - 1) ∧
      squareOut realMath (runCalls realMath SR new calls) =
        (if (runCalls realMath SR new calls).m_Phase < Real.pi then 1 else -1) := by
  have hpi : 0 < 2 * Real.pi := by positivity
  have hpi2 := Real.pi_pos
  obtain ⟨_, h1, h2⟩ := runCalls_phase_in_period SR calls new hf (by simp [new]; linarith)
    (by simp [new]; linarith) (by simp [new]; linarith)
  generalize runCalls realMath SR new calls = o at hz h1 h2
  have ht0 : 0 ≤ |o.m_Phase| / (2 * Real.pi) := div_nonneg (abs_nonneg _) hpi.le
  have ht1 : |o.m_Phase| / (2 * Real.pi) ≤ 1 :=
    (div_le_one hpi).2 (abs_le.2 ⟨h1, h2⟩)
  obtain ⟨hr0, hr1⟩ := fmod_one_range (y := |o.m_Phase| / (2 * Real.pi) + 1 / 2) (by linarith)
  have hdt : |o.m_PhaseIncr| / (2 * Real.pi) = 0 := by
    rw [hz, abs_zero, zero_div]
  have hA : ¬ polyBLEPDivides (|o.m_Phase| / (2 * Real.pi)) 0 := by
    rintro (h | h) <;> linarith
  have hB : ¬ polyBLEPDivides (fmod (|o.m_Phase| / (2 * Real.pi) + 1 / 2) 1) 0 := by
    rintro (h | h) <;> linarith
  have pA : polyBLEP (|o.m_Phase| / (2 * Real.pi)) 0 = 0 :=
    polyBLEP_of_mid (fun h => hA (Or.inl h)) (fun h => hA (Or.inr h))
  have pB : polyBLEP (fmod (|o.m_Phase| / (2 * Real.pi) + 1 / 2) 1) 0 = 0 :=
    polyBLEP_of_mid (fun h => hB (Or.inl h)) (fun h => hB (Or.inr h))
  rw [hdt]
  refine ⟨?_, pA, pB, ?_, ?_⟩
  · rintro ⟨_, h | ⟨_, h⟩⟩
    · simp only [realMath, hdt] at h
      exact hA h
    · simp only [realMath, hdt] at h
      exact hB h
  · intro hm
    rw [nextSample_saw o hm, hdt, pA, sub_zero]
  · simp only [squareOut, realMath, hdt, pA, pB, add_zero, sub_zero]

/-- C15 (amended), on a freshly constructed oscillator switched to Sawtooth mode
after two samples with the frequency never set. -/
theorem C15_zero_increment_guarded_witness :
    ¬ dividesByDt realMath (runCalls realMath 1 new
      [Call.setOscillatorMode OscillatorMode.SAWTOOTH, Call.nextSample, Call.nextSample]) :=
  (C15_zero_increment_guarded 1
    [Call.setOscillatorMode OscillatorMode.SAWTOOTH, Call.nextSample, Call.nextSample]
    (by
      intro f hf
      simp only [List.mem_cons, reduceCtorEq, List.not_mem_nil, or_false] at hf)
    (by
      simp only [runCalls, List.foldl_cons, List.foldl_nil, applyCall, (nextSample_fields _).1]
      rfl)).1

end PolyBLEPOsc

end SAL
